import Mathlib

/-!
Verification development for the masm assembler.

The Rust sources (lexer.rs, ir.rs, parser.rs, generator.rs) are shallowly
embedded below.  Rust strings are modelled as lists of characters, u16/u8
values as natural numbers with explicit wrap-around (`% 65536`) where the
source uses wrapping arithmetic, `HashMap` as an association list in which
`insert` prepends a binding and lookup returns the first binding with the
given key (observationally equal to the overwrite semantics of `HashMap`
through lookups), and fallible functions as `Except`.
-/

namespace Masm

/-- Keyword is the token type produced by the lexer (lexer.rs, `enum Keyword`).
Line numbers are modelled as naturals. -/
inductive Keyword where
  | mmenonic (name : List Char) (line_number : Nat)
  | registerAddress (name : List Char) (line_number : Nat)
  | constant (value : Nat) (line_number : Nat) (origin : List Char)
  | label (name : List Char) (line_number : Nat)
deriving Repr, DecidableEq

/-- LexerError (lexer.rs).  The `ioError` variant carries an `io::Error` in the
source; it is unreachable in this embedding, which is handed the list of
already-read lines. -/
inductive LexerError where
  | invalidRegisterIdentifier (actual : List Char) (line_number : Nat)
  | invalidIdentifier (actual : List Char) (line_number : Nat)
  | commandAfterCommand (command_name : List Char) (line_number : Nat)
  | labelAfterCommand (label_name : List Char) (line_number : Nat)
  | ioError
deriving Repr, DecidableEq

/-- PartialEq for Keyword (lexer.rs `impl PartialEq`): names are compared and
line numbers ignored; constants compare by value and origin text. -/
def keywordEq (a b : Keyword) : Bool :=
  match a, b with
  | .label n _, .label m _ => n == m
  | .registerAddress n _, .registerAddress m _ => n == m
  | .mmenonic n _, .mmenonic m _ => n == m
  | .constant v _ o, .constant w _ p => v == w && o == p
  | _, _ => false

/-- Value of a digit character in a radix, as in Rust `char::to_digit`. -/
def toDigit (c : Char) (radix : Nat) : Option Nat :=
  let v : Option Nat :=
    if c.isDigit then some (c.toNat - '0'.toNat)
    else if 'a' ≤ c ∧ c ≤ 'z' then some (c.toNat - 'a'.toNat + 10)
    else if 'A' ≤ c ∧ c ≤ 'Z' then some (c.toNat - 'A'.toNat + 10)
    else none
  v.bind (fun d => if d < radix then some d else none)

/-- Mathematical value of a digit string (none if empty or if some character is
not a digit of the radix).  This is the digit-accumulation loop of
`u16::from_str_radix` without the overflow check. -/
def digitsVal (s : List Char) (radix : Nat) : Option Nat :=
  match s with
  | [] => none
  | _ =>
    s.foldl (fun acc c => acc.bind fun v => (toDigit c radix).map fun d => v * radix + d)
      (some 0)

/-- Strip the optional leading plus sign accepted by `u16::from_str_radix`. -/
def stripPlus (s : List Char) : List Char :=
  match s with
  | '+' :: rest => rest
  | _ => s

/-- Behaviour of `u16::from_str_radix`: an optional leading plus sign followed
by at least one digit of the radix.  The per-step checked arithmetic of the
source fails exactly when the final value does not fit in 16 bits, so it is
modelled by a bound on the final value. -/
def fromStrRadix (s : List Char) (radix : Nat) : Option Nat :=
  (digitsVal (stripPlus s) radix).bind fun v => if v < 65536 then some v else none

/-- Wrap-around negation on 16 bits, as in `u16::wrapping_neg`. -/
def wrappingNeg16 (v : Nat) : Nat :=
  (65536 - v % 65536) % 65536

/-- Radix selection of `word_type` (lexer.rs lines 289-329): which substring is
parsed, in which radix, and whether the numeral is negated.  The match arms are
in source order; the plain-decimal and signed-decimal arms are disjoint so
their relative order is immaterial. -/
def radixSelect (word : List Char) : Option (List Char × Nat × Bool) :=
  match word with
  | '-' :: '0' :: 'x' :: rest => some (rest, 16, true)
  | '0' :: 'x' :: rest => some (rest, 16, false)
  | '-' :: '0' :: 'b' :: rest => some (rest, 2, true)
  | '0' :: 'b' :: rest => some (rest, 2, false)
  | '-' :: rest =>
    match rest with
    | c :: _ => if c.isDigit then some (rest, 10, true) else none
    | [] => none
  | c :: _ => if c.isDigit then some (word, 10, false) else none
  | [] => none

/-- Mathematical (unbounded) value selected by the numeral branch of
`word_type`, ignoring the sign; used to state claims about numerals whose
value does not fit in 16 bits. -/
def wordNumeralVal (word : List Char) : Option Nat :=
  (radixSelect word).bind fun sel => digitsVal (stripPlus sel.1) sel.2.1

/-- word_type (lexer.rs): classify one operand word. -/
def word_type (word : List Char) (line_number : Nat) : Except LexerError Keyword :=
  match word with
  | '%' :: register_identifier => .ok (.registerAddress register_identifier line_number)
  | _ =>
    match (radixSelect word).bind (fun sel =>
        (fromStrRadix sel.1 sel.2.1).map fun num =>
          if sel.2.2 then wrappingNeg16 num else num) with
    | some parsed => .ok (.constant parsed line_number word)
    | none =>
      if word.all Char.isAlphanum then .ok (.label word line_number)
      else .error (.invalidIdentifier word line_number)

/-- Leading-whitespace trim, as in Rust `str::trim_start` (whitespace set
restricted to the ASCII whitespace recognised by `Char.isWhitespace`). -/
def trimStart (l : List Char) : List Char :=
  l.dropWhile Char.isWhitespace

/-- Trailing-whitespace trim, as in Rust `str::trim_end`. -/
def trimEnd (l : List Char) : List Char :=
  (l.reverse.dropWhile Char.isWhitespace).reverse

/-- Accumulator form of the whitespace split; `cur` holds the reversed
characters of the word being read. -/
def splitWhitespaceAux (cur : List Char) : List Char → List (List Char)
  | [] => if cur = [] then [] else [cur.reverse]
  | c :: rest =>
    if c.isWhitespace then
      if cur = [] then splitWhitespaceAux [] rest
      else cur.reverse :: splitWhitespaceAux [] rest
    else splitWhitespaceAux (c :: cur) rest

/-- Whitespace split, as in Rust `str::split_whitespace`: maximal runs of
non-whitespace characters, empty substrings discarded. -/
def splitWhitespace (l : List Char) : List (List Char) :=
  splitWhitespaceAux [] l

/-- Operand-word loop of `lex_line`: pushes classified keywords onto the
buffer, stopping at the first error (which is returned together with the
partially extended buffer, matching the by-mutable-reference buffer of the
source).  A word classified as a mnemonic would raise `CommandAfterCommand`;
`word_type` never returns a mnemonic, so that arm is dead, as in the source. -/
def lexWords (keywords : List Keyword) (words : List (List Char)) (line_number : Nat) :
    List Keyword × Option LexerError :=
  match words with
  | [] => (keywords, none)
  | w :: rest =>
    match word_type w line_number with
    | .ok (.mmenonic name n) => (keywords, some (.commandAfterCommand name n))
    | .ok keyword => lexWords (keywords ++ [keyword]) rest line_number
    | .error err => (keywords, some err)

/-- Trailing-colon strip used for label lines (`line.strip_suffix(':')`). -/
def stripColon (l : List Char) : Option (List Char) :=
  if l.getLast? = some ':' then some l.dropLast else none

/-- Test of `line.starts_with([' ', '\t'])` (lexer.rs line 238). -/
def startsIndented (l : List Char) : Bool :=
  match l with
  | c :: _ => c == ' ' || c == '\t'
  | [] => false

/-- lex_line (lexer.rs lines 230-276).  Returns the updated keyword buffer and
an optional error.  Note that after a successful instruction branch the label
check still runs, on the trimmed and comment-stripped line, exactly as in the
source (the two `if`s are not exclusive). -/
def lex_line (keywords : List Keyword) (line : List Char) (line_number : Nat) :
    List Keyword × Option LexerError :=
  let line := trimEnd line
  if startsIndented line then
    let line := trimStart line
    let line := line.takeWhile (fun ch => ch ≠ ';')
    match splitWhitespace line with
    | [] => (keywords, none)
    | command :: args =>
      match lexWords (keywords ++ [.mmenonic command line_number]) args line_number with
      | (buf, some err) => (buf, some err)
      | (buf, none) =>
        match stripColon line with
        | some label => (buf ++ [.label label line_number], none)
        | none => (buf, none)
  else
    match stripColon line with
    | some label => (keywords ++ [.label label line_number], none)
    | none => (keywords, none)

/-- Line loop of `lexer` (lexer.rs lines 199-213): on success the buffer is
appended to the token list and emptied; on error the error is collected and
the partially filled buffer is kept for the next line, as in the source.
Returns the tokens, the leftover buffer, the collected errors and the final
line number. -/
def lexLines : List (List Char) → Nat → List Keyword → List Keyword → List LexerError →
    List Keyword × List Keyword × List LexerError × Nat
  | [], line_number, lexed, buffer, errors => (lexed, buffer, errors, line_number)
  | line :: rest, line_number, lexed, buffer, errors =>
    match lex_line buffer line line_number with
    | (buf, none) => lexLines rest (line_number + 1) (lexed ++ buf) [] errors
    | (buf, some err) => lexLines rest (line_number + 1) lexed buf (errors ++ [err])

/-- lexer (lexer.rs lines 191-228) on an already-read list of lines.  A final
halt mnemonic is appended when the last token (if any) differs from it under
the name-based Keyword equality.  Exactly as in the source, the collected
per-line errors do not influence the result: the function returns `Ok` with
the token list regardless (`Err` is only produced on an IO failure, which
cannot occur in this embedding). -/
def lexer (lines : List (List Char)) : Except (List LexerError) (List Keyword) :=
  let r := lexLines lines 0 [] [] []
  let lexed := r.1
  let hlt : Keyword := .mmenonic ['h', 'l', 't'] r.2.2.2
  let lexed :=
    if (match lexed.getLast? with
        | some last => !keywordEq last hlt
        | none => false) then lexed ++ [hlt] else lexed
  .ok lexed

/-- Errors collected by the lexer run (the `errors` vector of the source). -/
def lexerErrors (lines : List (List Char)) : List LexerError :=
  (lexLines lines 0 [] [] []).2.2.1

/-- Original-string rendering of a keyword (lexer.rs `get_original_string`). -/
def get_original_string (k : Keyword) : List Char :=
  match k with
  | .mmenonic name _ => name
  | .registerAddress name _ => '%' :: name
  | .label name _ => '.' :: name
  | .constant _ _ origin => origin

/-- Line number carried by a keyword (lexer.rs `impl LineNumber for Keyword`). -/
def get_line_number (k : Keyword) : Nat :=
  match k with
  | .mmenonic _ n => n
  | .registerAddress _ n => n
  | .constant _ n _ => n
  | .label _ n => n

/-! Data model from ir.rs.  `LabelReference` is a newtype of the label name
with name-based equality and hashing, so label-keyed maps are modelled as
association lists keyed directly by the name.  `insert` prepends and lookup
returns the first binding, which is observationally the overwrite semantics
of `HashMap`. -/

/-- RegisterAddress (ir.rs): a 3-bit register number stored in a u8. -/
structure RegisterAddress where
  val : Nat
deriving Repr, DecidableEq

/-- Register (ir.rs). -/
structure Register where
  address : RegisterAddress
deriving Repr, DecidableEq

/-- Boolean newtype (ir.rs). -/
structure Boolean where
  val : Bool
deriving Repr, DecidableEq

/-- LabelDefinition (ir.rs): name plus resolved address (u16 in the source). -/
structure LabelDefinition where
  name : List Char
  address : Nat
deriving Repr, DecidableEq

/-- LabelLUT (ir.rs): lookup table from label name to definition. -/
abbrev LabelLUT := List (List Char × LabelDefinition)

/-- UnaryExpression (ir.rs). -/
structure UnaryExpression where
  target : Register
  source_a : Register
deriving Repr, DecidableEq

/-- UnaryStatement (ir.rs). -/
structure UnaryStatement where
  source_a : Register
deriving Repr, DecidableEq

/-- BinaryExpression (ir.rs). -/
structure BinaryExpression where
  target : Register
  source_a : Register
  source_b : Register
deriving Repr, DecidableEq

/-- BinaryStatement (ir.rs). -/
structure BinaryStatement where
  source_a : Register
  source_b : Register
deriving Repr, DecidableEq

/-- TernaryExpression (ir.rs). -/
structure TernaryExpression where
  target : Register
  source_a : Register
  source_b : Register
  source_c : Register
deriving Repr, DecidableEq

/-- LoadSource (ir.rs). -/
inductive LoadSource where
  | constant (value : Nat)
  | ram (address_register : Register)
  | pgm
deriving Repr, DecidableEq

/-- JumpTarget (ir.rs); the label target carries the referenced name. -/
inductive JumpTarget where
  | constant (value : Nat)
  | register (r : Register)
  | label (name : List Char)
deriving Repr, DecidableEq

/-- JumpCondition (ir.rs). -/
inductive JumpCondition where
  | True
  | Zero
  | NotZero
  | Less
  | Overflow
deriving Repr, DecidableEq

/-- Instruction (ir.rs).  The source's `enum Instruction` has no `Debug`
variant (the generator's `Debug` match arm refers to a variant absent from
ir.rs), so none is modelled. -/
inductive Instruction where
  | move (e : UnaryExpression)
  | set32BitMode (enable : Boolean)
  | load (address : RegisterAddress) (source : LoadSource)
  | storeRAM (address_register : RegisterAddress) (data_register : RegisterAddress)
  | halt
  | noop
  | jump (target : JumpTarget) (condition : JumpCondition)
  | add (e : BinaryExpression)
  | add3 (e : TernaryExpression)
  | addWithCarry (e : BinaryExpression)
  | subtract (e : BinaryExpression)
  | subtractWithCarry (e : BinaryExpression)
  | increment (e : UnaryExpression)
  | decrement (e : UnaryExpression)
  | multiply (e : BinaryExpression)
  | test (e : BinaryStatement)
  | and (e : BinaryExpression)
  | or (e : BinaryExpression)
  | not (e : UnaryExpression)
  | xor (e : BinaryExpression)
  | xnor (e : BinaryExpression)
  | shiftLeft (e : BinaryExpression)
  | shiftRight (e : BinaryExpression)
  | negate (e : UnaryExpression)
deriving Repr, DecidableEq

/-- IR (ir.rs): start label, label table and the per-label instruction lists. -/
structure IR where
  start_label : List Char
  label_definitions : LabelLUT
  instructions : List (List Char × List Instruction)

/-- ParserError (parser.rs).  Where the source formats a keyword with debug
formatting for the `found` field, this embedding stores the keyword's
original string instead; no claim depends on these payload texts. -/
inductive ParserError where
  | endOfStream
  | emptyStream
  | unknownCommand (command : List Char) (line_number : Nat)
  | missingArgument (command : List Char) (arg_name : List Char) (line_number : Nat)
  | couldNotParseArgument (command : List Char) (arg_name : List Char)
      (arg_value : List Char) (line_number : Nat)
  | expectedFound (expected : List Char) (found : List Char) (line_number : Nat)
deriving Repr, DecidableEq

/-- try_parse_bool (parser.rs).  The source matches a `Keyword::Boolean`
variant that the lexer's Keyword type does not define, so the success arm is
uninhabited and every keyword falls to the error arm. -/
def try_parse_bool (keyword : Keyword) : Except ParserError Boolean :=
  .error (.expectedFound ("Keyword::Boolean").toList (get_original_string keyword)
    (get_line_number keyword))

/-- try_parse_constant (parser.rs). -/
def try_parse_constant (keyword : Keyword) : Except ParserError Nat :=
  match keyword with
  | .constant value _ _ => .ok value
  | _ => .error (.expectedFound ("Keyword::Constant").toList (get_original_string keyword)
      (get_line_number keyword))

/-- try_parse_label_definition (parser.rs lines 667-683): a label keyword
resolves to the previous label's address plus the number of instructions
parsed since it. -/
def try_parse_label_definition (keyword : Keyword) (last_label_address : Nat)
    (instructions_since_label : Nat) : Except ParserError LabelDefinition :=
  match keyword with
  | .label name _ => .ok ⟨name, last_label_address + instructions_since_label⟩
  | _ => .error (.expectedFound ("Keyword::Label").toList (get_original_string keyword)
      (get_line_number keyword))

/-- try_parse_label_reference (parser.rs). -/
def try_parse_label_reference (keyword : Keyword) : Except ParserError (List Char) :=
  match keyword with
  | .label name _ => .ok name
  | _ => .error (.expectedFound ("Keyword::Label").toList (get_original_string keyword)
      (get_line_number keyword))

/-- try_parse_register (parser.rs lines 696-737): the name must start with
"reg"; only the first character after the prefix is examined, a digit 0-7 or
a letter A-H, both mapping to the 3-bit address space. -/
def try_parse_register (keyword : Keyword) : Except ParserError RegisterAddress :=
  match keyword with
  | .registerAddress name line_number =>
    match name with
    | 'r' :: 'e' :: 'g' :: register_number =>
      match register_number with
      | [] => .error (.expectedFound ("valid register number (0..7 | A..H)").toList
          register_number line_number)
      | c :: _ =>
        if '0' ≤ c ∧ c ≤ '7' then .ok ⟨c.toNat - '0'.toNat⟩
        else if 'A' ≤ c ∧ c ≤ 'H' then .ok ⟨c.toNat - 'A'.toNat⟩
        else .error (.expectedFound ("valid register number (0..7 | A..H)").toList
          register_number line_number)
    | _ => .error (.expectedFound ("valid register identifier").toList name line_number)
  | _ => .error (.expectedFound ("Keyword::RegisterAddress").toList
      (get_original_string keyword) (get_line_number keyword))

/-! Operand-arity parsers (parser.rs).  Each consumes keywords from the front
of the stream and returns the parsed value together with the remaining
stream, mirroring the `Iter` advanced by the source. -/

/-- try_parse_ldc (parser.rs): target register then 16-bit constant. -/
def try_parse_ldc (keywords : List Keyword) (line_number : Nat) :
    Except ParserError (Instruction × List Keyword) :=
  match keywords with
  | maybe_target_register :: rest =>
    match try_parse_register maybe_target_register with
    | .error e => .error e
    | .ok target_register =>
      match rest with
      | maybe_constant :: rest2 =>
        match try_parse_constant maybe_constant with
        | .error e => .error e
        | .ok constant => .ok (.load target_register (.constant constant), rest2)
      | [] => .error (.missingArgument ("ldc").toList ("Constant16").toList line_number)
  | [] => .error (.missingArgument ("ldc").toList ("TargetRegister").toList line_number)

/-- try_parse_unary_expression (parser.rs): target and source registers. -/
def try_parse_unary_expression (instruction : List Char) (keywords : List Keyword)
    (line_number : Nat) : Except ParserError (UnaryExpression × List Keyword) :=
  match keywords with
  | maybe_target_register :: rest =>
    match try_parse_register maybe_target_register with
    | .error e => .error e
    | .ok target =>
      match rest with
      | maybe_source_register :: rest2 =>
        match try_parse_register maybe_source_register with
        | .error e => .error e
        | .ok source => .ok (⟨⟨target⟩, ⟨source⟩⟩, rest2)
      | [] => .error (.missingArgument instruction ("SourceRegister").toList line_number)
  | [] => .error (.missingArgument instruction ("TargetRegister").toList line_number)

/-- try_parse_unary_statement (parser.rs): a single source register. -/
def try_parse_unary_statement (instruction : List Char) (keywords : List Keyword)
    (line_number : Nat) : Except ParserError (UnaryStatement × List Keyword) :=
  match keywords with
  | maybe_source_register :: rest =>
    match try_parse_register maybe_source_register with
    | .error e => .error e
    | .ok source => .ok (⟨⟨source⟩⟩, rest)
  | [] => .error (.missingArgument instruction ("SourceRegister").toList line_number)

/-- try_parse_binary_expression (parser.rs): target and two source registers. -/
def try_parse_binary_expression (instruction : List Char) (keywords : List Keyword)
    (line_number : Nat) : Except ParserError (BinaryExpression × List Keyword) :=
  match keywords with
  | maybe_target_register :: rest =>
    match try_parse_register maybe_target_register with
    | .error e => .error e
    | .ok target =>
      match rest with
      | maybe_source_a :: rest2 =>
        match try_parse_register maybe_source_a with
        | .error e => .error e
        | .ok source_a =>
          match rest2 with
          | maybe_source_b :: rest3 =>
            match try_parse_register maybe_source_b with
            | .error e => .error e
            | .ok source_b => .ok (⟨⟨target⟩, ⟨source_a⟩, ⟨source_b⟩⟩, rest3)
          | [] => .error (.missingArgument instruction ("SourceRegisterB").toList line_number)
      | [] => .error (.missingArgument instruction ("SourceRegisterA").toList line_number)
  | [] => .error (.missingArgument instruction ("TargetRegister").toList line_number)

/-- try_parse_binary_statement (parser.rs): two source registers. -/
def try_parse_binary_statement (instruction : List Char) (keywords : List Keyword)
    (line_number : Nat) : Except ParserError (BinaryStatement × List Keyword) :=
  match keywords with
  | maybe_source_a :: rest =>
    match try_parse_register maybe_source_a with
    | .error e => .error e
    | .ok source_a =>
      match rest with
      | maybe_source_b :: rest2 =>
        match try_parse_register maybe_source_b with
        | .error e => .error e
        | .ok source_b => .ok (⟨⟨source_a⟩, ⟨source_b⟩⟩, rest2)
      | [] => .error (.missingArgument instruction ("SourceRegisterB").toList line_number)
  | [] => .error (.missingArgument instruction ("SourceRegisterA").toList line_number)

/-- try_parse_ternary_expression (parser.rs): target and three sources. -/
def try_parse_ternary_expression (instruction : List Char) (keywords : List Keyword)
    (line_number : Nat) : Except ParserError (TernaryExpression × List Keyword) :=
  match keywords with
  | maybe_target_register :: rest =>
    match try_parse_register maybe_target_register with
    | .error e => .error e
    | .ok target =>
      match rest with
      | maybe_source_a :: rest2 =>
        match try_parse_register maybe_source_a with
        | .error e => .error e
        | .ok source_a =>
          match rest2 with
          | maybe_source_b :: rest3 =>
            match try_parse_register maybe_source_b with
            | .error e => .error e
            | .ok source_b =>
              match rest3 with
              | maybe_source_c :: rest4 =>
                match try_parse_register maybe_source_c with
                | .error e => .error e
                | .ok source_c =>
                  .ok (⟨⟨target⟩, ⟨source_a⟩, ⟨source_b⟩, ⟨source_c⟩⟩, rest4)
              | [] =>
                .error (.missingArgument instruction ("SourceRegisterC").toList line_number)
          | [] => .error (.missingArgument instruction ("SourceRegisterB").toList line_number)
      | [] => .error (.missingArgument instruction ("SourceRegisterA").toList line_number)
  | [] => .error (.missingArgument instruction ("TargetRegister").toList line_number)

/-- try_parse_jmp (parser.rs): absolute jump to a register target. -/
def try_parse_jmp (jump_instruction : Keyword) (keywords : List Keyword)
    (line_number : Nat) (condition : JumpCondition) :
    Except ParserError (Instruction × List Keyword) :=
  match keywords with
  | maybe_target :: rest =>
    match try_parse_register maybe_target with
    | .ok register => .ok (.jump (.register ⟨register⟩) condition, rest)
    | .error _ => .error (.couldNotParseArgument (get_original_string jump_instruction)
        ("DestinationRegister").toList (get_original_string maybe_target) line_number)
  | [] => .error (.missingArgument (get_original_string jump_instruction)
      ("DestinationRegister").toList line_number)

/-- try_parse_jr (parser.rs): relative jump to a constant, else to a label
reference (forward references permitted). -/
def try_parse_jr (jump_instruction : Keyword) (keywords : List Keyword)
    (line_number : Nat) (condition : JumpCondition) :
    Except ParserError (Instruction × List Keyword) :=
  match keywords with
  | maybe_target :: rest =>
    match try_parse_constant maybe_target with
    | .ok constant => .ok (.jump (.constant constant) condition, rest)
    | .error _ =>
      match try_parse_label_reference maybe_target with
      | .ok label => .ok (.jump (.label label) condition, rest)
      | .error _ => .error (.couldNotParseArgument (get_original_string jump_instruction)
          ("ConstantSigned12 or JumpLabel").toList (get_original_string maybe_target)
          line_number)
  | [] => .error (.missingArgument (get_original_string jump_instruction)
      ("ConstantSigned12 or JumpLabel").toList line_number)

/-- try_parse_instruction (parser.rs lines 161-394): table-driven dispatch
from the mnemonic name to the operand-shape parser.  Returns the parsed
instruction and the remaining keyword stream. -/
def try_parse_instruction (next_keyword : Keyword) (keywords : List Keyword) :
    Except ParserError (Instruction × List Keyword) :=
  match next_keyword with
  | .mmenonic name line_number =>
    if name = ("ldc").toList then try_parse_ldc keywords line_number
    else if name = ("add").toList then
      (try_parse_binary_expression ("add").toList keywords line_number).map
        fun r => (.add r.1, r.2)
    else if name = ("add3").toList then
      (try_parse_ternary_expression ("add3").toList keywords line_number).map
        fun r => (.add3 r.1, r.2)
    else if name = ("addc").toList then
      (try_parse_binary_expression ("addc").toList keywords line_number).map
        fun r => (.addWithCarry r.1, r.2)
    else if name = ("sub").toList then
      (try_parse_binary_expression ("sub").toList keywords line_number).map
        fun r => (.subtract r.1, r.2)
    else if name = ("subc").toList then
      (try_parse_binary_expression ("subc").toList keywords line_number).map
        fun r => (.subtractWithCarry r.1, r.2)
    else if name = ("inc").toList then
      (try_parse_unary_statement ("inc").toList keywords line_number).map
        fun r => (.increment ⟨r.1.source_a, r.1.source_a⟩, r.2)
    else if name = ("dec").toList then
      (try_parse_unary_statement ("dec").toList keywords line_number).map
        fun r => (.decrement ⟨r.1.source_a, r.1.source_a⟩, r.2)
    else if name = ("mul").toList then
      (try_parse_binary_expression ("mul").toList keywords line_number).map
        fun r => (.multiply r.1, r.2)
    else if name = ("and").toList then
      (try_parse_binary_expression ("and").toList keywords line_number).map
        fun r => (.and r.1, r.2)
    else if name = ("or").toList then
      (try_parse_binary_expression ("or").toList keywords line_number).map
        fun r => (.or r.1, r.2)
    else if name = ("not").toList then
      (try_parse_unary_expression ("not").toList keywords line_number).map
        fun r => (.not r.1, r.2)
    else if name = ("neg").toList then
      (try_parse_unary_expression ("neg").toList keywords line_number).map
        fun r => (.negate r.1, r.2)
    else if name = ("xor").toList then
      (try_parse_binary_expression ("xor").toList keywords line_number).map
        fun r => (.xor r.1, r.2)
    else if name = ("xnor").toList then
      (try_parse_binary_expression ("xnor").toList keywords line_number).map
        fun r => (.xnor r.1, r.2)
    else if name = ("shl").toList then
      (try_parse_binary_expression ("shl").toList keywords line_number).map
        fun r => (.shiftLeft r.1, r.2)
    else if name = ("shr").toList then
      (try_parse_binary_expression ("shr").toList keywords line_number).map
        fun r => (.shiftRight r.1, r.2)
    else if name = ("tst").toList then
      (try_parse_binary_statement ("tst").toList keywords line_number).map
        fun r => (.test r.1, r.2)
    else if name = ("mov").toList then
      (try_parse_unary_expression ("mov").toList keywords line_number).map
        fun r => (.move r.1, r.2)
    else if name = ("s32b").toList then
      match keywords with
      | maybe_bool :: rest =>
        match try_parse_bool maybe_bool with
        | .ok boolean => .ok (.set32BitMode boolean, rest)
        | .error _ => .error (.couldNotParseArgument ("s32b").toList
            ("EnableBoolean").toList (get_original_string maybe_bool) line_number)
      | [] => .error (.missingArgument ("s32b").toList ("EnableBoolean").toList line_number)
    else if name = ("hlt").toList then .ok (.halt, keywords)
    else if name = ("jmp").toList then try_parse_jmp next_keyword keywords line_number .True
    else if name = ("jz").toList then try_parse_jmp next_keyword keywords line_number .Zero
    else if name = ("jnz").toList then
      try_parse_jmp next_keyword keywords line_number .NotZero
    else if name = ("jc").toList then try_parse_jmp next_keyword keywords line_number .Less
    else if name = ("jo").toList then
      try_parse_jmp next_keyword keywords line_number .Overflow
    else if name = ("jrcon").toList then try_parse_jr next_keyword keywords line_number .True
    else if name = ("jr").toList then try_parse_jr next_keyword keywords line_number .True
    else if name = ("jzr").toList then try_parse_jr next_keyword keywords line_number .Zero
    else if name = ("jnzr").toList then
      try_parse_jr next_keyword keywords line_number .NotZero
    else if name = ("jcr").toList then try_parse_jr next_keyword keywords line_number .Less
    else if name = ("jor").toList then
      try_parse_jr next_keyword keywords line_number .Overflow
    else if name = ("st").toList then
      (try_parse_unary_expression ("st").toList keywords line_number).map
        fun r => (.storeRAM r.1.target.address r.1.source_a.address, r.2)
    else if name = ("ld").toList then
      (try_parse_unary_expression ("ld").toList keywords line_number).map
        fun r => (.load r.1.target.address (.ram r.1.source_a), r.2)
    else if name = ("nop").toList then .ok (.noop, keywords)
    else .error (.unknownCommand name line_number)
  | .constant value line_number _ =>
    .error (.unknownCommand (toString value).toList line_number)
  | .label name line_number => .error (.unknownCommand name line_number)
  | .registerAddress name line_number => .error (.unknownCommand name line_number)

/-! Each operand parser only ever advances the keyword stream, so a
successful parse returns a stream no longer than its input.  These lemmas
justify termination of the parser loop. -/

theorem try_parse_ldc_length {ks : List Keyword} {ln : Nat} {i : Instruction}
    {rest : List Keyword} (h : try_parse_ldc ks ln = .ok (i, rest)) :
    rest.length ≤ ks.length := by
  unfold try_parse_ldc at h
  repeat' split at h
  all_goals simp_all
  all_goals omega

theorem try_parse_unary_expression_length {s : List Char} {ks : List Keyword} {ln : Nat}
    {e : UnaryExpression} {rest : List Keyword}
    (h : try_parse_unary_expression s ks ln = .ok (e, rest)) :
    rest.length ≤ ks.length := by
  unfold try_parse_unary_expression at h
  repeat' split at h
  all_goals simp_all
  all_goals omega

theorem try_parse_unary_statement_length {s : List Char} {ks : List Keyword} {ln : Nat}
    {e : UnaryStatement} {rest : List Keyword}
    (h : try_parse_unary_statement s ks ln = .ok (e, rest)) :
    rest.length ≤ ks.length := by
  unfold try_parse_unary_statement at h
  repeat' split at h
  all_goals simp_all

theorem try_parse_binary_expression_length {s : List Char} {ks : List Keyword} {ln : Nat}
    {e : BinaryExpression} {rest : List Keyword}
    (h : try_parse_binary_expression s ks ln = .ok (e, rest)) :
    rest.length ≤ ks.length := by
  unfold try_parse_binary_expression at h
  repeat' split at h
  all_goals simp_all
  all_goals omega

theorem try_parse_binary_statement_length {s : List Char} {ks : List Keyword} {ln : Nat}
    {e : BinaryStatement} {rest : List Keyword}
    (h : try_parse_binary_statement s ks ln = .ok (e, rest)) :
    rest.length ≤ ks.length := by
  unfold try_parse_binary_statement at h
  repeat' split at h
  all_goals simp_all
  all_goals omega

theorem try_parse_ternary_expression_length {s : List Char} {ks : List Keyword} {ln : Nat}
    {e : TernaryExpression} {rest : List Keyword}
    (h : try_parse_ternary_expression s ks ln = .ok (e, rest)) :
    rest.length ≤ ks.length := by
  unfold try_parse_ternary_expression at h
  repeat' split at h
  all_goals simp_all
  all_goals omega

theorem try_parse_jmp_length {j : Keyword} {ks : List Keyword} {ln : Nat}
    {c : JumpCondition} {i : Instruction} {rest : List Keyword}
    (h : try_parse_jmp j ks ln c = .ok (i, rest)) :
    rest.length ≤ ks.length := by
  unfold try_parse_jmp at h
  repeat' split at h
  all_goals simp_all

theorem try_parse_jr_length {j : Keyword} {ks : List Keyword} {ln : Nat}
    {c : JumpCondition} {i : Instruction} {rest : List Keyword}
    (h : try_parse_jr j ks ln c = .ok (i, rest)) :
    rest.length ≤ ks.length := by
  unfold try_parse_jr at h
  repeat' split at h
  all_goals simp_all

theorem except_map_ok {E A B : Type} {p : Except E A} {f : A → B} {y : B}
    (h : p.map f = .ok y) : ∃ a, p = .ok a ∧ f a = y := by
  cases p with
  | error e => simp [Except.map] at h
  | ok v => exact ⟨v, rfl, by simpa [Except.map] using h⟩

theorem try_parse_instruction_length {k : Keyword} {ks : List Keyword}
    {i : Instruction} {rest : List Keyword}
    (h : try_parse_instruction k ks = .ok (i, rest)) :
    rest.length ≤ ks.length := by
  unfold try_parse_instruction at h
  split at h
  case h_2 => simp at h
  case h_3 => simp at h
  case h_4 => simp at h
  case h_1 =>
    rename_i name ln
    by_cases hc0 : name = ("ldc").toList
    case pos => rw [if_pos hc0] at h; exact try_parse_ldc_length h
    rw [if_neg hc0] at h
    by_cases hc1 : name = ("add").toList
    case pos => rw [if_pos hc1] at h; obtain ⟨a, hp, hf⟩ := except_map_ok h; obtain ⟨a1, a2⟩ := a; simp at hf; exact hf.2 ▸ try_parse_binary_expression_length hp
    rw [if_neg hc1] at h
    by_cases hc2 : name = ("add3").toList
    case pos => rw [if_pos hc2] at h; obtain ⟨a, hp, hf⟩ := except_map_ok h; obtain ⟨a1, a2⟩ := a; simp at hf; exact hf.2 ▸ try_parse_ternary_expression_length hp
    rw [if_neg hc2] at h
    by_cases hc3 : name = ("addc").toList
    case pos => rw [if_pos hc3] at h; obtain ⟨a, hp, hf⟩ := except_map_ok h; obtain ⟨a1, a2⟩ := a; simp at hf; exact hf.2 ▸ try_parse_binary_expression_length hp
    rw [if_neg hc3] at h
    by_cases hc4 : name = ("sub").toList
    case pos => rw [if_pos hc4] at h; obtain ⟨a, hp, hf⟩ := except_map_ok h; obtain ⟨a1, a2⟩ := a; simp at hf; exact hf.2 ▸ try_parse_binary_expression_length hp
    rw [if_neg hc4] at h
    by_cases hc5 : name = ("subc").toList
    case pos => rw [if_pos hc5] at h; obtain ⟨a, hp, hf⟩ := except_map_ok h; obtain ⟨a1, a2⟩ := a; simp at hf; exact hf.2 ▸ try_parse_binary_expression_length hp
    rw [if_neg hc5] at h
    by_cases hc6 : name = ("inc").toList
    case pos => rw [if_pos hc6] at h; obtain ⟨a, hp, hf⟩ := except_map_ok h; obtain ⟨a1, a2⟩ := a; simp at hf; exact hf.2 ▸ try_parse_unary_statement_length hp
    rw [if_neg hc6] at h
    by_cases hc7 : name = ("dec").toList
    case pos => rw [if_pos hc7] at h; obtain ⟨a, hp, hf⟩ := except_map_ok h; obtain ⟨a1, a2⟩ := a; simp at hf; exact hf.2 ▸ try_parse_unary_statement_length hp
    rw [if_neg hc7] at h
    by_cases hc8 : name = ("mul").toList
    case pos => rw [if_pos hc8] at h; obtain ⟨a, hp, hf⟩ := except_map_ok h; obtain ⟨a1, a2⟩ := a; simp at hf; exact hf.2 ▸ try_parse_binary_expression_length hp
    rw [if_neg hc8] at h
    by_cases hc9 : name = ("and").toList
    case pos => rw [if_pos hc9] at h; obtain ⟨a, hp, hf⟩ := except_map_ok h; obtain ⟨a1, a2⟩ := a; simp at hf; exact hf.2 ▸ try_parse_binary_expression_length hp
    rw [if_neg hc9] at h
    by_cases hc10 : name = ("or").toList
    case pos => rw [if_pos hc10] at h; obtain ⟨a, hp, hf⟩ := except_map_ok h; obtain ⟨a1, a2⟩ := a; simp at hf; exact hf.2 ▸ try_parse_binary_expression_length hp
    rw [if_neg hc10] at h
    by_cases hc11 : name = ("not").toList
    case pos => rw [if_pos hc11] at h; obtain ⟨a, hp, hf⟩ := except_map_ok h; obtain ⟨a1, a2⟩ := a; simp at hf; exact hf.2 ▸ try_parse_unary_expression_length hp
    rw [if_neg hc11] at h
    by_cases hc12 : name = ("neg").toList
    case pos => rw [if_pos hc12] at h; obtain ⟨a, hp, hf⟩ := except_map_ok h; obtain ⟨a1, a2⟩ := a; simp at hf; exact hf.2 ▸ try_parse_unary_expression_length hp
    rw [if_neg hc12] at h
    by_cases hc13 : name = ("xor").toList
    case pos => rw [if_pos hc13] at h; obtain ⟨a, hp, hf⟩ := except_map_ok h; obtain ⟨a1, a2⟩ := a; simp at hf; exact hf.2 ▸ try_parse_binary_expression_length hp
    rw [if_neg hc13] at h
    by_cases hc14 : name = ("xnor").toList
    case pos => rw [if_pos hc14] at h; obtain ⟨a, hp, hf⟩ := except_map_ok h; obtain ⟨a1, a2⟩ := a; simp at hf; exact hf.2 ▸ try_parse_binary_expression_length hp
    rw [if_neg hc14] at h
    by_cases hc15 : name = ("shl").toList
    case pos => rw [if_pos hc15] at h; obtain ⟨a, hp, hf⟩ := except_map_ok h; obtain ⟨a1, a2⟩ := a; simp at hf; exact hf.2 ▸ try_parse_binary_expression_length hp
    rw [if_neg hc15] at h
    by_cases hc16 : name = ("shr").toList
    case pos => rw [if_pos hc16] at h; obtain ⟨a, hp, hf⟩ := except_map_ok h; obtain ⟨a1, a2⟩ := a; simp at hf; exact hf.2 ▸ try_parse_binary_expression_length hp
    rw [if_neg hc16] at h
    by_cases hc17 : name = ("tst").toList
    case pos => rw [if_pos hc17] at h; obtain ⟨a, hp, hf⟩ := except_map_ok h; obtain ⟨a1, a2⟩ := a; simp at hf; exact hf.2 ▸ try_parse_binary_statement_length hp
    rw [if_neg hc17] at h
    by_cases hc18 : name = ("mov").toList
    case pos => rw [if_pos hc18] at h; obtain ⟨a, hp, hf⟩ := except_map_ok h; obtain ⟨a1, a2⟩ := a; simp at hf; exact hf.2 ▸ try_parse_unary_expression_length hp
    rw [if_neg hc18] at h
    by_cases hc19 : name = ("s32b").toList
    case pos => rw [if_pos hc19] at h; cases ks <;> simp_all [try_parse_bool]
    rw [if_neg hc19] at h
    by_cases hc20 : name = ("hlt").toList
    case pos => rw [if_pos hc20] at h; simp_all
    rw [if_neg hc20] at h
    by_cases hc21 : name = ("jmp").toList
    case pos => rw [if_pos hc21] at h; exact try_parse_jmp_length h
    rw [if_neg hc21] at h
    by_cases hc22 : name = ("jz").toList
    case pos => rw [if_pos hc22] at h; exact try_parse_jmp_length h
    rw [if_neg hc22] at h
    by_cases hc23 : name = ("jnz").toList
    case pos => rw [if_pos hc23] at h; exact try_parse_jmp_length h
    rw [if_neg hc23] at h
    by_cases hc24 : name = ("jc").toList
    case pos => rw [if_pos hc24] at h; exact try_parse_jmp_length h
    rw [if_neg hc24] at h
    by_cases hc25 : name = ("jo").toList
    case pos => rw [if_pos hc25] at h; exact try_parse_jmp_length h
    rw [if_neg hc25] at h
    by_cases hc26 : name = ("jrcon").toList
    case pos => rw [if_pos hc26] at h; exact try_parse_jr_length h
    rw [if_neg hc26] at h
    by_cases hc27 : name = ("jr").toList
    case pos => rw [if_pos hc27] at h; exact try_parse_jr_length h
    rw [if_neg hc27] at h
    by_cases hc28 : name = ("jzr").toList
    case pos => rw [if_pos hc28] at h; exact try_parse_jr_length h
    rw [if_neg hc28] at h
    by_cases hc29 : name = ("jnzr").toList
    case pos => rw [if_pos hc29] at h; exact try_parse_jr_length h
    rw [if_neg hc29] at h
    by_cases hc30 : name = ("jcr").toList
    case pos => rw [if_pos hc30] at h; exact try_parse_jr_length h
    rw [if_neg hc30] at h
    by_cases hc31 : name = ("jor").toList
    case pos => rw [if_pos hc31] at h; exact try_parse_jr_length h
    rw [if_neg hc31] at h
    by_cases hc32 : name = ("st").toList
    case pos => rw [if_pos hc32] at h; obtain ⟨a, hp, hf⟩ := except_map_ok h; obtain ⟨a1, a2⟩ := a; simp at hf; exact hf.2 ▸ try_parse_unary_expression_length hp
    rw [if_neg hc32] at h
    by_cases hc33 : name = ("ld").toList
    case pos => rw [if_pos hc33] at h; obtain ⟨a, hp, hf⟩ := except_map_ok h; obtain ⟨a1, a2⟩ := a; simp at hf; exact hf.2 ▸ try_parse_unary_expression_length hp
    rw [if_neg hc33] at h
    by_cases hc34 : name = ("nop").toList
    case pos => rw [if_pos hc34] at h; simp_all
    rw [if_neg hc34] at h
    simp at h

/-- Update of the binding a `HashMap::get_mut` lookup would return: the first
binding with the given key is modified in place. -/
def updateFirst (parsed : List (List Char × List Instruction)) (name : List Char)
    (f : List Instruction → List Instruction) : List (List Char × List Instruction) :=
  match parsed with
  | [] => []
  | (k, v) :: rest =>
    if k == name then (k, f v) :: rest else (k, v) :: updateFirst rest name f

/-- Instruction insertion of parser.rs lines 134-138: push onto the existing
list for the label if present, otherwise insert a fresh singleton list. -/
def pushInstr (parsed : List (List Char × List Instruction)) (name : List Char)
    (instruction : Instruction) : List (List Char × List Instruction) :=
  if (parsed.lookup name).isSome then
    updateFirst parsed name (fun l => l ++ [instruction])
  else (name, [instruction]) :: parsed

/-- Main loop of parser (parser.rs lines 120-158).  A label keyword closes the
current label's run of instructions and opens a new one at address
`last_label.address + instructions_since_label`; any other keyword is parsed
as an instruction appended to the current label's list.  The `endOfStream`
arm is kept from the source although no sub-parser produces that error. -/
def parseLoop (iter : List Keyword) (known_labels : LabelLUT)
    (parsed : List (List Char × List Instruction))
    (start_label last_label : LabelDefinition) (instructions_since_label : Nat) :
    Except ParserError IR :=
  match iter with
  | [] => .ok ⟨start_label.name, known_labels, parsed⟩
  | next_keyword :: rest =>
    match try_parse_label_definition next_keyword last_label.address
        instructions_since_label with
    | .ok label =>
      parseLoop rest ((label.name, label) :: known_labels) ((label.name, []) :: parsed)
        start_label label 0
    | .error _ =>
      match hi : try_parse_instruction next_keyword rest with
      | .ok (instruction, rest') =>
        parseLoop rest' known_labels (pushInstr parsed last_label.name instruction)
          start_label last_label (instructions_since_label + 1)
      | .error .endOfStream => .ok ⟨start_label.name, known_labels, parsed⟩
      | .error e => .error e
termination_by iter.length
decreasing_by
  · simp
  · have := try_parse_instruction_length hi
    simp; omega

/-- Unfolding of `parseLoop` on the empty stream. -/
theorem parseLoop_nil (kl : LabelLUT) (p : List (List Char × List Instruction))
    (sl ll : LabelDefinition) (c : Nat) :
    parseLoop [] kl p sl ll c = .ok ⟨sl.name, kl, p⟩ := by
  rw [parseLoop.eq_def]

/-- Unfolding of `parseLoop` on a label keyword. -/
theorem parseLoop_label (name : List Char) (ln : Nat) (rest : List Keyword)
    (kl : LabelLUT) (p : List (List Char × List Instruction))
    (sl ll : LabelDefinition) (c : Nat) :
    parseLoop (.label name ln :: rest) kl p sl ll c =
      parseLoop rest ((name, ⟨name, ll.address + c⟩) :: kl) ((name, []) :: p) sl
        ⟨name, ll.address + c⟩ 0 := by
  rw [parseLoop.eq_def]
  simp [try_parse_label_definition]

/-- Unfolding of `parseLoop` on a mnemonic keyword. -/
theorem parseLoop_mmenonic (name : List Char) (ln : Nat) (rest : List Keyword)
    (kl : LabelLUT) (p : List (List Char × List Instruction))
    (sl ll : LabelDefinition) (c : Nat) :
    parseLoop (.mmenonic name ln :: rest) kl p sl ll c =
      (match _hi : try_parse_instruction (.mmenonic name ln) rest with
       | .ok (instruction, rest') =>
         parseLoop rest' kl (pushInstr p ll.name instruction) sl ll (c + 1)
       | .error .endOfStream => .ok ⟨sl.name, kl, p⟩
       | .error e => .error e) := by
  rw [parseLoop.eq_def]
  simp [try_parse_label_definition]

/-- parser (parser.rs lines 82-159).  The first keyword either names the start
label (at address 0) or is an instruction filed under the synthetic "main"
label at address 0. -/
def parser (keywords : List Keyword) : Except ParserError IR :=
  match keywords with
  | [] => .error .emptyStream
  | first_keyword :: rest =>
    match try_parse_label_definition first_keyword 0 0 with
    | .ok parsed_start_label =>
      parseLoop rest [(parsed_start_label.name, parsed_start_label)] []
        parsed_start_label parsed_start_label 0
    | .error _ =>
      let start_label : LabelDefinition := ⟨("main").toList, 0⟩
      match try_parse_instruction first_keyword rest with
      | .ok (instruction, rest') =>
        parseLoop rest' [(start_label.name, start_label)]
          (pushInstr [] start_label.name instruction) start_label start_label 1
      | .error .endOfStream => .error .emptyStream
      | .error e => .error e

/-! Generator (generator.rs).  An InstructionWord is the 20-slot boolean
buffer of the source; bit 0 is the least significant bit. -/

/-- InstructionWord (generator.rs): fixed-size 20-bit bit vector. -/
structure InstructionWord where
  buffer : List Bool
deriving Repr, DecidableEq

/-- set_bits (generator.rs lines 109-116): write the low bits of `int` into
the slice, least significant first; bits of `int` beyond the slice length are
dropped. -/
def set_bits : List Bool → Nat → List Bool
  | [], _ => []
  | _ :: rest, int => (int % 2 == 1) :: set_bits rest (int / 2)

/-- Application of `set_bits` to the sub-slice `buffer[lo..=hi]`. -/
def setRange (buffer : List Bool) (lo hi : Nat) (int : Nat) : List Bool :=
  buffer.take lo ++ set_bits ((buffer.drop lo).take (hi + 1 - lo)) int ++
    buffer.drop (hi + 1)

/-- Fresh cleared word (`InstructionWord::new` / `clear`). -/
def newWord : InstructionWord :=
  ⟨List.replicate 20 false⟩

/-- set_constant16 (generator.rs lines 20-26): low 4 bits of the constant into
bits 0-3, the high 12 bits into bits 8-19. -/
def set_constant16 (w : InstructionWord) (constant : Nat) : InstructionWord :=
  ⟨setRange (setRange w.buffer 0 3 (constant % 16)) 8 19 (constant >>> 4)⟩

/-- set_load (generator.rs): bit 7 marks the immediate-load format. -/
def set_load (w : InstructionWord) : InstructionWord :=
  ⟨w.buffer.set 7 true⟩

/-- set_load_address (generator.rs): target register into bits 4-6. -/
def set_load_address (w : InstructionWord) (address : Nat) : InstructionWord :=
  ⟨setRange w.buffer 4 6 address⟩

/-- set_target (generator.rs): bits 17-19. -/
def set_target (w : InstructionWord) (address : Nat) : InstructionWord :=
  ⟨setRange w.buffer 17 19 address⟩

/-- set_op_a (generator.rs): bits 8-10. -/
def set_op_a (w : InstructionWord) (address : Nat) : InstructionWord :=
  ⟨setRange w.buffer 8 10 address⟩

/-- set_op_b (generator.rs): bits 11-13. -/
def set_op_b (w : InstructionWord) (address : Nat) : InstructionWord :=
  ⟨setRange w.buffer 11 13 address⟩

/-- set_op_c (generator.rs): bits 14-16. -/
def set_op_c (w : InstructionWord) (address : Nat) : InstructionWord :=
  ⟨setRange w.buffer 14 16 address⟩

/-- set_opcode (generator.rs): bits 0-7. -/
def set_opcode (w : InstructionWord) (opcode : Nat) : InstructionWord :=
  ⟨setRange w.buffer 0 7 opcode⟩

/-- set_constant12 (generator.rs lines 48-50): bits 8-19. -/
def set_constant12 (w : InstructionWord) (constant : Nat) : InstructionWord :=
  ⟨setRange w.buffer 8 19 constant⟩

/-- set_unary_statement (generator.rs). -/
def set_unary_statement (w : InstructionWord) (e : UnaryStatement) : InstructionWord :=
  set_op_a w e.source_a.address.val

/-- set_unary_expression (generator.rs). -/
def set_unary_expression (w : InstructionWord) (e : UnaryExpression) : InstructionWord :=
  set_op_a (set_target w e.target.address.val) e.source_a.address.val

/-- set_binary_statement (generator.rs). -/
def set_binary_statement (w : InstructionWord) (e : BinaryStatement) : InstructionWord :=
  set_op_b (set_op_a w e.source_a.address.val) e.source_b.address.val

/-- set_binary_expression (generator.rs). -/
def set_binary_expression (w : InstructionWord) (e : BinaryExpression) : InstructionWord :=
  set_op_b (set_op_a (set_target w e.target.address.val) e.source_a.address.val)
    e.source_b.address.val

/-- set_ternary_expression (generator.rs). -/
def set_ternary_expression (w : InstructionWord) (e : TernaryExpression) : InstructionWord :=
  set_op_c (set_op_b (set_op_a (set_target w e.target.address.val)
    e.source_a.address.val) e.source_b.address.val) e.source_c.address.val

/-- GeneratorError (generator.rs). -/
inductive GeneratorError where
  | undefinedLabel (label_name : List Char)
deriving Repr, DecidableEq

/-- Wrap-around subtraction on 16 bits, as in `u16::wrapping_sub` (both
operands reduced to their 16-bit value first). -/
def wrappingSub16 (a b : Nat) : Nat :=
  (a % 65536 + 65536 - b % 65536) % 65536

/-- Condition offset of the jump opcodes (generator.rs lines 247-268). -/
def condOffset (condition : JumpCondition) : Nat :=
  match condition with
  | .True => 0
  | .Zero => 1
  | .NotZero => 2
  | .Less => 3
  | .Overflow => 4

/-- Encoding of one instruction: the body of the generator's per-instruction
match (generator.rs lines 142-330), returning the words pushed for it (one
for every arm except the wildcard, which pushes none).  `label` is the
definition whose list the instruction belongs to and `idx` its index therein;
both enter only the relative-jump offset.  The source computes the offset as
`jump_label.address.wrapping_sub(label.address + idx as u16 + 1)` a u16 sum
modelled without wrap, as a debug build would panic on overflow and
`idx as u16` as `idx % 65536` and for a constant target as `c - 1`, whose
release-mode wrap-around is modelled (a debug build panics at c = 0). -/
def encodeInstr (label_definitions : LabelLUT) (label : LabelDefinition) (idx : Nat)
    (instr : Instruction) : Except GeneratorError (List InstructionWord) :=
  match instr with
  | .add binary_expression =>
    .ok [set_binary_expression (set_opcode newWord 0x0) binary_expression]
  | .add3 ternary_expression =>
    .ok [set_ternary_expression (set_opcode newWord 0x1) ternary_expression]
  | .addWithCarry binary_expression =>
    .ok [set_binary_expression (set_opcode newWord 0x2) binary_expression]
  | .subtract binary_expression =>
    .ok [set_binary_expression (set_opcode newWord 0x3) binary_expression]
  | .subtractWithCarry binary_expression =>
    .ok [set_binary_expression (set_opcode newWord 0x4) binary_expression]
  | .increment unary_expression =>
    .ok [set_unary_expression (set_opcode newWord 0x5) unary_expression]
  | .decrement unary_expression =>
    .ok [set_unary_expression (set_opcode newWord 0x6) unary_expression]
  | .multiply binary_expression =>
    .ok [set_binary_expression (set_opcode newWord 0x7) binary_expression]
  | .test binary_statement =>
    .ok [set_binary_statement (set_opcode newWord 0x8) binary_statement]
  | .and binary_expression =>
    .ok [set_binary_expression (set_opcode newWord 0x9) binary_expression]
  | .or binary_expression =>
    .ok [set_binary_expression (set_opcode newWord 0xa) binary_expression]
  | .not unary_expression =>
    .ok [set_unary_expression (set_opcode newWord 0xb) unary_expression]
  | .negate unary_expression =>
    .ok [set_unary_expression (set_opcode newWord 0xb) unary_expression]
  | .xor binary_expression =>
    .ok [set_binary_expression (set_opcode newWord 0xd) binary_expression]
  | .xnor binary_expression =>
    .ok [set_binary_expression (set_opcode newWord 0xe) binary_expression]
  | .shiftLeft binary_expression =>
    .ok [set_binary_expression (set_opcode newWord 0xf) binary_expression]
  | .shiftRight binary_expression =>
    .ok [set_binary_expression (set_opcode newWord 0x10) binary_expression]
  | .move unary_expression =>
    .ok [set_unary_expression (set_opcode newWord 0x48) unary_expression]
  | .set32BitMode enable =>
    .ok [set_constant12 (set_opcode newWord 0x4a) (if enable.val then 0xff else 0x00)]
  | .jump (.register reg) condition =>
    .ok [set_op_a (set_opcode newWord (0x50 + condOffset condition)) reg.address.val]
  | .jump target condition =>
    let w := set_opcode newWord (0x58 + condOffset condition)
    match target with
    | .label jump_label_ref =>
      match label_definitions.lookup jump_label_ref with
      | some jump_label =>
        .ok [set_constant12 w
          (wrappingSub16 jump_label.address (label.address + idx % 65536 + 1))]
      | none => .error (.undefinedLabel jump_label_ref)
    | .constant c => .ok [set_constant12 w (wrappingSub16 c 1)]
    | .register _ => .ok [set_constant12 w 0]
  | .halt => .ok [set_opcode newWord 0x7f]
  | .load address (.constant c) =>
    .ok [set_constant16 (set_load_address (set_load newWord) address.val) c]
  | .storeRAM address_register data_register =>
    .ok [set_op_b (set_op_a (set_opcode newWord 0x68) data_register.val)
      address_register.val]
  | .load address (.ram address_register) =>
    .ok [set_target (set_op_b (set_opcode newWord 0x69) address_register.address.val)
      address.val]
  | .noop => .ok [set_opcode newWord 0x6c]
  | .load _ .pgm => .ok []

/-- Inner loop of the generator over one label's instruction list, starting at
index `idx`. -/
def genInstrs (label_definitions : LabelLUT) (label : LabelDefinition)
    (instrs : List Instruction) (idx : Nat) :
    Except GeneratorError (List InstructionWord) :=
  match instrs with
  | [] => .ok []
  | instr :: rest =>
    match encodeInstr label_definitions label idx instr with
    | .error e => .error e
    | .ok ws =>
      match genInstrs label_definitions label rest (idx + 1) with
      | .error e => .error e
      | .ok rest_ws => .ok (ws ++ rest_ws)

/-- Outer loop of the generator over the labels in ascending address order;
labels whose name has no entry in the instructions map contribute nothing. -/
def genLabels (label_definitions : LabelLUT)
    (instructions : List (List Char × List Instruction)) :
    List LabelDefinition → Except GeneratorError (List InstructionWord)
  | [] => .ok []
  | label :: rest =>
    match (match instructions.lookup label.name with
           | some instrs => genInstrs label_definitions label instrs 0
           | none => .ok []) with
    | .error e => .error e
    | .ok ws =>
      match genLabels label_definitions instructions rest with
      | .error e => .error e
      | .ok rest_ws => .ok (ws ++ rest_ws)

/-- generator (generator.rs lines 132-336): visit the label definitions in
ascending resolved-address order (Rust's `sort_by` is a stable sort, modelled
with the stable `insertionSort`) and emit each label's instructions in
order. -/
def generator (ir : IR) : Except GeneratorError (List InstructionWord) :=
  let labels := (ir.label_definitions.map Prod.snd).insertionSort
    (fun a b => a.address ≤ b.address)
  genLabels ir.label_definitions ir.instructions labels

/-! Decoding helpers, following the documented bit layout of the
specification: bit i of a word carries weight 2^i. -/

/-- Value of a little-endian bit list. -/
def bitsToNat : List Bool → Nat
  | [] => 0
  | b :: rest => b.toNat + 2 * bitsToNat rest

/-- Value of the `len`-bit field starting at bit `lo` of a word. -/
def fieldVal (w : InstructionWord) (lo len : Nat) : Nat :=
  bitsToNat ((w.buffer.drop lo).take len)

/-- Decoding of an immediate-load word per the documented layout: bits 0-3 the
low 4 bits of the constant, bits 4-6 the target register, bits 8-19 the high
12 bits; full constant = (high12 <<< 4) ||| low4. -/
def decodeLoad (w : InstructionWord) : Nat × Nat :=
  (fieldVal w 4 3, (fieldVal w 8 12) <<< 4 ||| fieldVal w 0 4)

/-! Claim theorems. -/

/-- Claim C1 (code bug exhibit).  The specification says a lexical error on
any line makes the lexer return the collected non-empty error list instead of
a token sequence.  The source collects the errors but unconditionally returns
`Ok` with the tokens (lexer.rs line 227); the error vector is only ever
returned when a later IO read fails.  On the single line "\tadd $x" the
operand "$x" raises InvalidIdentifier, yet the lexer returns a token
sequence (here empty, since the partially lexed line stays in the buffer). -/
theorem lexer_returns_ok_despite_collected_errors :
    lexer [("\tadd $x").toList] = .ok [] ∧
    lexerErrors [("\tadd $x").toList] = [.invalidIdentifier ['$', 'x'] 0] :=
  ⟨rfl, rfl⟩

/-- Claim C8, counterexample: on empty input the lexer succeeds with an empty
token sequence, which does not end in a Halt mnemonic; the trailing-halt
append is skipped whenever the lexed list is empty (lexer.rs lines 219-225,
`lexed.last()` is `None`). -/
theorem lexer_empty_input_no_halt : lexer [] = .ok [] :=
  rfl

/-- Claim C8 (amended): whenever the lexer succeeds and the returned token
sequence is non-empty, its last token is a "hlt" mnemonic (the append fires
exactly when the last token differs from it under keyword equality). -/
theorem lexer_trailing_halt (lines : List (List Char)) (ks : List Keyword)
    (h : lexer lines = .ok ks) (hne : ks ≠ []) :
    ∃ ln, ks.getLast? = some (.mmenonic ['h', 'l', 't'] ln) := by
  simp only [lexer] at h
  split at h
  · simp only [Except.ok.injEq] at h
    refine ⟨(lexLines lines 0 [] [] []).2.2.2, ?_⟩
    rw [← h]
    simp
  · rename_i hcond
    simp only [Except.ok.injEq] at h
    rw [h] at hcond
    rcases hgl : ks.getLast? with _ | last
    · exact absurd (List.getLast?_eq_none_iff.mp hgl) hne
    · rw [hgl] at hcond
      cases last with
      | mmenonic n ln =>
        simp only [keywordEq, Bool.not_eq_true, Bool.not_eq_false] at hcond
        have : n = ['h', 'l', 't'] := by simpa using hcond
        exact ⟨ln, by simp [hgl, this]⟩
      | registerAddress n ln => simp [keywordEq] at hcond
      | constant v ln o => simp [keywordEq] at hcond
      | label n ln => simp [keywordEq] at hcond

/-- Claim C8 witness: a concrete run in which the halt token is appended. -/
theorem lexer_trailing_halt_witness :
    ∃ ks, lexer [("\tnop").toList] = .ok ks ∧ ks ≠ [] ∧
      ∃ ln, ks.getLast? = some (.mmenonic ['h', 'l', 't'] ln) :=
  ⟨[.mmenonic ['n', 'o', 'p'] 0, .mmenonic ['h', 'l', 't'] 1], rfl, by decide,
    lexer_trailing_halt [("\tnop").toList]
      [.mmenonic ['n', 'o', 'p'] 0, .mmenonic ['h', 'l', 't'] 1] rfl (by decide)⟩

/-- Claim C9, counterexample: the indented line "    loop:" ends, after
indentation stripping, in the label terminator, yet lexing it contributes two
tokens a mnemonic "loop:" and the label "loop" because in lex_line the
trailing-colon check runs after the instruction branch as well
(lexer.rs lines 238-273). -/
theorem lex_line_indented_label_two_tokens :
    lex_line [] (("    loop:").toList) 0 =
      ([.mmenonic ("loop:").toList 0, .label ("loop").toList 0], none) ∧
    trimStart (trimEnd (("    loop:").toList)) ≠ [] ∧
    (trimStart (trimEnd (("    loop:").toList))).getLast? = some ':' :=
  ⟨rfl, by decide, rfl⟩

/-- Claim C9 (amended): a line that does not begin with a space or tab and
whose trimmed content ends in the label terminator contributes exactly one
token, the Label carrying the content without the terminator. -/
theorem lex_line_label_line (buffer : List Keyword) (line : List Char) (ln : Nat)
    (name : List Char)
    (hni : startsIndented (trimEnd line) = false)
    (hcolon : stripColon (trimEnd line) = some name) :
    lex_line buffer line ln = (buffer ++ [.label name ln], none) := by
  unfold lex_line
  dsimp only
  rw [hni]
  simp [hcolon]

/-- Claim C9 witness: the unindented line "loop:" lexes to exactly one Label
token. -/
theorem lex_line_label_line_witness :
    lex_line [] (("loop:").toList) 3 = ([.label ("loop").toList 3], none) :=
  lex_line_label_line [] (("loop:").toList) 3 (("loop").toList) (by decide) (by decide)

/-- Claim C10: an operand word made of ASCII alphanumeric characters whose
numeral interpretation (per the radix prefix rules of word_type) has a value
of at least 2^16 is classified as a bare identifier Label keyword, because
u16::from_str_radix fails on overflow and the word then passes the
alphanumeric check (lexer.rs lines 289-348). -/
theorem word_type_overflowing_numeral_is_label (word : List Char) (ln : Nat) (v : Nat)
    (hval : wordNumeralVal word = some v) (hbig : 65536 ≤ v)
    (halpha : word.all Char.isAlphanum = true) :
    word_type word ln = .ok (.label word ln) := by
  obtain ⟨sel, hsel, hdig⟩ : ∃ sel, radixSelect word = some sel ∧
      digitsVal (stripPlus sel.1) sel.2.1 = some v := by
    unfold wordNumeralVal at hval
    cases hrs : radixSelect word with
    | none => rw [hrs] at hval; simp at hval
    | some s => rw [hrs] at hval; exact ⟨s, rfl, by simpa using hval⟩
  have hfsr : fromStrRadix sel.1 sel.2.1 = none := by
    unfold fromStrRadix
    rw [hdig]
    rw [Option.some_bind]
    rw [if_neg (by omega)]
  unfold word_type
  split
  · rename_i ri
    rw [List.all_cons] at halpha
    rw [show ('%'.isAlphanum) = false from by decide] at halpha
    simp at halpha
  · rw [hsel]
    simp [hfsr, halpha]

/-- Claim C10 witness: the decimal word "70000" does not fit in 16 bits and
lexes to a Label keyword. -/
theorem word_type_overflowing_numeral_is_label_witness :
    word_type (("70000").toList) 3 = .ok (.label (("70000").toList) 3) :=
  word_type_overflowing_numeral_is_label (("70000").toList) 3 70000 (by decide)
    (by decide) (by decide)

/-! Helper lemmas for the bit-level claims. -/

/-- Joining the high bits shifted left with 4 low bits is the same as the
arithmetic sum. -/
theorem lor16 (a b : Nat) (hb : b < 16) : (a <<< 4) ||| b = 16 * a + b := by
  apply Nat.eq_of_testBit_eq
  intro i
  rw [Nat.testBit_lor, Nat.testBit_shiftLeft]
  rcases Nat.lt_or_ge i 4 with hi | hi
  · rw [show 16 * a + b = 2 ^ 4 * a + b from by ring]
    rw [Nat.testBit_mul_pow_two_add a (by omega : b < 2 ^ 4) i]
    simp [hi, Nat.not_le.mpr hi]
  · rw [show 16 * a + b = 2 ^ 4 * a + b from by ring]
    rw [Nat.testBit_mul_pow_two_add a (by omega : b < 2 ^ 4) i]
    have : b.testBit i = false := Nat.testBit_lt_two_pow (by
      calc b < 16 := hb
        _ ≤ 2 ^ i := by
          calc (16 : Nat) = 2 ^ 4 := by norm_num
          _ ≤ 2 ^ i := Nat.pow_le_pow_right (by omega) hi)
    simp [hi, Nat.le_of_lt, this, Nat.not_lt.mpr hi]

/-- Value of a slice written by `set_bits`: the written integer truncated to
the slice width. -/
theorem bitsToNat_set_bits (l : List Bool) (v : Nat) :
    bitsToNat (set_bits l v) = v % 2 ^ l.length := by
  induction l generalizing v with
  | nil => simp [set_bits, bitsToNat, Nat.mod_one]
  | cons b rest ih =>
    rw [set_bits, bitsToNat, ih]
    rw [List.length_cons, pow_succ]
    rw [show (2 : Nat) ^ rest.length * 2 = 2 * 2 ^ rest.length from by ring]
    rw [Nat.mod_mul]
    rcases Nat.mod_two_eq_zero_or_one v with h | h <;> simp [h]

/-- Reduction of `try_parse_register` on a register token with the "reg"
prefix and a non-empty suffix: only the first suffix character is examined. -/
theorem try_parse_register_reg (c : Char) (cs : List Char) (ln : Nat) :
    try_parse_register (.registerAddress ('r' :: 'e' :: 'g' :: c :: cs) ln) =
      (if '0' ≤ c ∧ c ≤ '7' then .ok ⟨c.toNat - '0'.toNat⟩
       else if 'A' ≤ c ∧ c ≤ 'H' then .ok ⟨c.toNat - 'A'.toNat⟩
       else .error (.expectedFound (("valid register number (0..7 | A..H)").toList)
         (c :: cs) ln)) := by
  unfold try_parse_register
  split
  · rename_i name1 ln1 heq
    injection heq with h1 h2
    subst h1
    subst h2
    split
    · rename_i rn heq2
      simp only [List.cons.injEq, true_and] at heq2
      obtain rfl := heq2.symm
      rfl
    · rename_i hne
      exact (hne (c :: cs) rfl).elim
  · rename_i hne
    exact (hne _ _ rfl).elim

/-- Claim C7, counterexample: the register token "reg0Z" parses successfully
to register 0 although extra characters follow the valid first character; the
specification says any such suffix must be a register-identifier error
(parser.rs line 703 examines only the first character). -/
theorem try_parse_register_ignores_extra_chars :
    try_parse_register (.registerAddress (("reg0Z").toList) 7) = .ok ⟨0⟩ :=
  rfl

/-- Claim C7 (amended): after the "reg" prefix, parsing succeeds exactly when
the first character of the non-empty suffix is a digit 0-7 or a letter A-H,
with digit d and letter chr(65+d) both mapping to address d; characters after
the first are ignored.  An empty suffix or an invalid first character is an
error. -/
theorem try_parse_register_first_char_spec (c : Char) (cs : List Char) (ln : Nat) :
    (('0' ≤ c ∧ c ≤ '7') →
      try_parse_register (.registerAddress ('r' :: 'e' :: 'g' :: c :: cs) ln) =
        .ok ⟨c.toNat - '0'.toNat⟩) ∧
    (('A' ≤ c ∧ c ≤ 'H') →
      try_parse_register (.registerAddress ('r' :: 'e' :: 'g' :: c :: cs) ln) =
        .ok ⟨c.toNat - 'A'.toNat⟩) ∧
    (¬('0' ≤ c ∧ c ≤ '7') → ¬('A' ≤ c ∧ c ≤ 'H') →
      try_parse_register (.registerAddress ('r' :: 'e' :: 'g' :: c :: cs) ln) =
        .error (.expectedFound (("valid register number (0..7 | A..H)").toList)
          (c :: cs) ln)) ∧
    (∀ d : Nat, d < 8 →
      try_parse_register (.registerAddress ['r', 'e', 'g', Char.ofNat (48 + d)] ln) =
        .ok ⟨d⟩ ∧
      try_parse_register (.registerAddress ['r', 'e', 'g', Char.ofNat (65 + d)] ln) =
        .ok ⟨d⟩) := by
  refine ⟨fun h => ?_, fun h => ?_, fun h1 h2 => ?_, fun d hd => ?_⟩
  · rw [try_parse_register_reg, if_pos h]
  · rw [try_parse_register_reg]
    have hn : ¬('0' ≤ c ∧ c ≤ '7') := by
      rintro ⟨h3, h4⟩
      obtain ⟨h5, h6⟩ := h
      rw [Char.le_def] at h3 h4 h5 h6
      simp [UInt32.le_def, BitVec.le_def] at h3 h4 h5 h6
      omega
    rw [if_neg hn, if_pos h]
  · rw [try_parse_register_reg, if_neg h1, if_neg h2]
  · interval_cases d <;> exact ⟨rfl, rfl⟩

/-- Claim C7 witness: concrete digit spelling. -/
theorem try_parse_register_first_char_spec_witness :
    ('0' ≤ '3' ∧ '3' ≤ '7') ∧
    try_parse_register (.registerAddress ('r' :: 'e' :: 'g' :: '3' :: []) 0) =
      .ok ⟨'3'.toNat - '0'.toNat⟩ :=
  ⟨by decide, (try_parse_register_first_char_spec '3' [] 0).1 (by decide)⟩

/-- Claim C3: encoding a Load-immediate instruction for register r and 16-bit
constant c (generator.rs lines 298-306 and 20-32) and decoding the word per
the documented layout recovers (r, c); bit 7 of the word is set.  The label
and index arguments do not enter the load encoding. -/
theorem load_immediate_roundtrip (r c : Nat) (hr : r ≤ 7) (hc : c < 65536) :
    encodeInstr [] ⟨[], 0⟩ 0 (.load ⟨r⟩ (.constant c)) =
      .ok [set_constant16 (set_load_address (set_load newWord) r) c] ∧
    decodeLoad (set_constant16 (set_load_address (set_load newWord) r) c) = (r, c) ∧
    (set_constant16 (set_load_address (set_load newWord) r) c).buffer.getD 7 false =
      true := by
  refine ⟨rfl, ?_, rfl⟩
  show (bitsToNat (set_bits [false, false, false] r),
      (bitsToNat (set_bits (List.replicate 12 false) (c >>> 4))) <<< 4 |||
        bitsToNat (set_bits [false, false, false, false] (c % 16))) = (r, c)
  rw [bitsToNat_set_bits, bitsToNat_set_bits, bitsToNat_set_bits]
  rw [Nat.shiftRight_eq_div_pow]
  simp only [List.length_cons, List.length_nil, List.length_replicate]
  rw [Nat.mod_eq_of_lt (by omega : r < 2 ^ 3)]
  rw [Nat.mod_eq_of_lt (by omega : c % 16 < 2 ^ 4)]
  rw [Nat.mod_eq_of_lt (by omega : c / 2 ^ 4 < 2 ^ 12)]
  rw [lor16 _ _ (by omega)]
  rw [show 16 * (c / 2 ^ 4) + c % 16 = c from by omega]

/-- Claim C3 witness: register 3 and constant 0xbeef. -/
theorem load_immediate_roundtrip_witness :
    3 ≤ 7 ∧ 48879 < 65536 ∧
    decodeLoad (set_constant16 (set_load_address (set_load newWord) 3) 48879) =
      (3, 48879) :=
  ⟨by decide, by decide, (load_immediate_roundtrip 3 48879 (by decide) (by decide)).2.1⟩

/-- Claim C2: for a relative jump whose label target is present in the table,
the generator emits one word whose 12-bit constant field (bits 8-19) is the
16-bit wrap-around difference (target address) - (address of the containing
label + index of the jump + 1), truncated to 12 bits
(generator.rs lines 260-289 and 48-50). -/
theorem generator_relative_jump_offset (defs : LabelLUT) (label tdef : LabelDefinition)
    (idx : Nat) (name : List Char) (condition : JumpCondition)
    (hlook : defs.lookup name = some tdef) (hidx : idx < 65536) :
    encodeInstr defs label idx (.jump (.label name) condition) =
      .ok [set_constant12 (set_opcode newWord (0x58 + condOffset condition))
        (wrappingSub16 tdef.address (label.address + idx + 1))] ∧
    fieldVal (set_constant12 (set_opcode newWord (0x58 + condOffset condition))
        (wrappingSub16 tdef.address (label.address + idx + 1))) 8 12 =
      wrappingSub16 tdef.address (label.address + idx + 1) % 4096 := by
  constructor
  · unfold encodeInstr
    dsimp only
    rw [hlook]
    rw [Nat.mod_eq_of_lt hidx]
  · show bitsToNat (set_bits (List.replicate 12 false)
      (wrappingSub16 tdef.address (label.address + idx + 1))) =
        wrappingSub16 tdef.address (label.address + idx + 1) % 4096
    rw [bitsToNat_set_bits]
    norm_num

/-- Claim C2 witness: a backward jump, from index 2 under a label at address
10 to a target at address 5, encodes offset 0xff8 (the specification's own
worked example). -/
theorem generator_relative_jump_offset_witness :
    ([(['t'], LabelDefinition.mk ['t'] 5)] : LabelLUT).lookup ['t'] =
      some (LabelDefinition.mk ['t'] 5) ∧
    fieldVal (set_constant12 (set_opcode newWord 0x58)
      (wrappingSub16 5 (10 + 2 + 1))) 8 12 = 4088 :=
  ⟨rfl, by
    have h := (generator_relative_jump_offset [(['t'], LabelDefinition.mk ['t'] 5)]
      (LabelDefinition.mk ['a'] 10) (LabelDefinition.mk ['t'] 5) 2 ['t'] .True rfl
      (by decide)).2
    simpa using h⟩

def isPgmLoad (i : Instruction) : Bool :=
  match i with
  | .load _ .pgm => true
  | _ => false

def isUndefRelJump (defs : LabelLUT) (i : Instruction) : Bool :=
  match i with
  | .jump (.label name) _ => (defs.lookup name).isNone
  | _ => false

theorem encodeInstr_ok_length {defs : LabelLUT} {l : LabelDefinition} {idx : Nat}
    {i : Instruction} {ws : List InstructionWord}
    (h : encodeInstr defs l idx i = .ok ws) :
    ws.length = (if isPgmLoad i then 0 else 1) := by
  cases i
  case jump t cond =>
    cases t
    case label name =>
      cases hl : defs.lookup name with
      | none => simp [encodeInstr, hl] at h
      | some d =>
        simp [encodeInstr, isPgmLoad, hl] at h ⊢
        simp [← h]
    all_goals simp [encodeInstr, isPgmLoad] at h ⊢
    all_goals simp [← h]
  case load a s =>
    cases s <;> simp [encodeInstr, isPgmLoad] at h ⊢ <;> simp [← h]
  all_goals simp [encodeInstr, isPgmLoad] at h ⊢
  all_goals simp [← h]

theorem encodeInstr_error_iff {defs : LabelLUT} {l : LabelDefinition} {idx : Nat}
    {i : Instruction} :
    (∃ e, encodeInstr defs l idx i = .error e) ↔ isUndefRelJump defs i = true := by
  cases i
  case jump t cond =>
    cases t
    case label name =>
      cases hl : defs.lookup name with
      | none => simp [encodeInstr, isUndefRelJump, hl]
      | some d => simp [encodeInstr, isUndefRelJump, hl]
    all_goals simp [encodeInstr, isUndefRelJump]
  case load a s =>
    cases s <;> simp [encodeInstr, isUndefRelJump]
  all_goals simp [encodeInstr, isUndefRelJump]

theorem genInstrs_ok_length {defs : LabelLUT} {l : LabelDefinition}
    {instrs : List Instruction} {idx : Nat} {ws : List InstructionWord}
    (h : genInstrs defs l instrs idx = .ok ws) :
    ws.length = instrs.countP (fun i => !isPgmLoad i) := by
  induction instrs generalizing idx ws with
  | nil => simp [genInstrs] at h; simp [← h]
  | cons i rest ih =>
    rw [genInstrs] at h
    cases he : encodeInstr defs l idx i with
    | error e => rw [he] at h; simp at h
    | ok ws1 =>
      rw [he] at h
      cases hr : genInstrs defs l rest (idx + 1) with
      | error e => rw [hr] at h; simp at h
      | ok ws2 =>
        rw [hr] at h
        simp at h
        rw [← h, List.length_append, encodeInstr_ok_length he, ih hr,
          List.countP_cons]
        cases hp : isPgmLoad i <;> simp [hp] <;> omega

theorem genInstrs_error_iff {defs : LabelLUT} {l : LabelDefinition}
    {instrs : List Instruction} {idx : Nat} :
    (∃ e, genInstrs defs l instrs idx = .error e) ↔
      ∃ i ∈ instrs, isUndefRelJump defs i = true := by
  induction instrs generalizing idx with
  | nil => simp [genInstrs]
  | cons i rest ih =>
    rw [genInstrs]
    cases he : encodeInstr defs l idx i with
    | error e =>
      simp only [List.mem_cons]
      constructor
      · intro _
        exact ⟨i, Or.inl rfl, encodeInstr_error_iff.mp ⟨e, he⟩⟩
      · intro _
        exact ⟨e, rfl⟩
    | ok ws1 =>
      have hnotbad : isUndefRelJump defs i = false := by
        rcases hb : isUndefRelJump defs i with _ | _
        · rfl
        · obtain ⟨e, he2⟩ := encodeInstr_error_iff.mpr hb
          rw [he] at he2
          exact absurd he2 (by simp)
      cases hr : genInstrs defs l rest (idx + 1) with
      | error e =>
        simp only [List.mem_cons]
        constructor
        · intro _
          obtain ⟨j, hj, hbad⟩ := (@ih (idx + 1)).mp ⟨e, hr⟩
          exact ⟨j, Or.inr hj, hbad⟩
        · intro _
          exact ⟨e, rfl⟩
      | ok ws2 =>
        simp only [List.mem_cons]
        constructor
        · rintro ⟨e, he2⟩
          simp at he2
        · rintro ⟨j, hj | hj, hbad⟩
          · rw [← hj] at hnotbad
            rw [hnotbad] at hbad
            exact absurd hbad (by simp)
          · obtain ⟨e, he2⟩ := (@ih (idx + 1)).mpr ⟨j, hj, hbad⟩
            rw [hr] at he2
            simp at he2

theorem genLabels_ok_length {defs : LabelLUT}
    {instrs : List (List Char × List Instruction)} {labels : List LabelDefinition}
    {ws : List InstructionWord} (h : genLabels defs instrs labels = .ok ws) :
    ws.length = (labels.map (fun d =>
      ((instrs.lookup d.name).getD []).countP (fun i => !isPgmLoad i))).sum := by
  induction labels generalizing ws with
  | nil => simp [genLabels] at h; simp [← h]
  | cons d rest ih =>
    rw [genLabels] at h
    cases hr : genLabels defs instrs rest with
    | error e =>
      rw [hr] at h
      cases hl : instrs.lookup d.name with
      | none => rw [hl] at h; simp at h
      | some li =>
        rw [hl] at h
        dsimp only at h
        cases he : genInstrs defs d li 0 with
        | error e2 => rw [he] at h; simp at h
        | ok ws1 => rw [he] at h; simp at h
    | ok ws2 =>
      rw [hr] at h
      cases hl : instrs.lookup d.name with
      | none =>
        rw [hl] at h
        dsimp only at h
        simp at h
        rw [← h]
        simp [hl, ih hr]
      | some li =>
        rw [hl] at h
        dsimp only at h
        cases he : genInstrs defs d li 0 with
        | error e2 => rw [he] at h; simp at h
        | ok ws1 =>
          rw [he] at h
          simp at h
          rw [← h, List.length_append, genInstrs_ok_length he, ih hr]
          simp [hl]

theorem genLabels_error_iff {defs : LabelLUT}
    {instrs : List (List Char × List Instruction)} {labels : List LabelDefinition} :
    (∃ e, genLabels defs instrs labels = .error e) ↔
      ∃ d ∈ labels, ∃ i ∈ (instrs.lookup d.name).getD [],
        isUndefRelJump defs i = true := by
  induction labels with
  | nil => simp [genLabels]
  | cons d rest ih =>
    rw [genLabels]
    simp only [List.mem_cons]
    cases hl : instrs.lookup d.name with
    | none =>
      cases hr : genLabels defs instrs rest with
      | error e =>
        constructor
        · intro _
          obtain ⟨d2, hd2, i, hi, hbad⟩ := ih.mp ⟨e, hr⟩
          exact ⟨d2, Or.inr hd2, i, hi, hbad⟩
        · intro _
          exact ⟨e, by simp [hr]⟩
      | ok ws2 =>
        constructor
        · rintro ⟨e, he⟩
          simp [hr] at he
        · rintro ⟨d2, hd2 | hd2, i, hi, hbad⟩
          · rw [hd2, hl] at hi
            simp at hi
          · obtain ⟨e, he⟩ := ih.mpr ⟨d2, hd2, i, hi, hbad⟩
            rw [hr] at he
            simp at he
    | some li =>
      cases he : genInstrs defs d li 0 with
      | error e =>
        constructor
        · intro _
          obtain ⟨i, hi, hbad⟩ := genInstrs_error_iff.mp ⟨e, he⟩
          exact ⟨d, Or.inl rfl, i, by simp [hl, hi], hbad⟩
        · intro _
          exact ⟨e, by simp [he]⟩
      | ok ws1 =>
        have hnone : ∀ i ∈ li, isUndefRelJump defs i = false := by
          intro i hi
          rcases hb : isUndefRelJump defs i with _ | _
          · rfl
          · obtain ⟨e, he2⟩ := genInstrs_error_iff.mpr ⟨i, hi, hb⟩
            rw [he] at he2
            exact absurd he2 (by simp)
        cases hr : genLabels defs instrs rest with
        | error e =>
          constructor
          · intro _
            obtain ⟨d2, hd2, i, hi, hbad⟩ := ih.mp ⟨e, hr⟩
            exact ⟨d2, Or.inr hd2, i, hi, hbad⟩
          · intro _
            exact ⟨e, by simp [he, hr]⟩
        | ok ws2 =>
          constructor
          · rintro ⟨e, he2⟩
            simp [he, hr] at he2
          · rintro ⟨d2, hd2 | hd2, i, hi, hbad⟩
            · rw [hd2, hl] at hi
              simp at hi
              rw [hnone i hi] at hbad
              exact absurd hbad (by simp)
            · obtain ⟨e, he2⟩ := ih.mpr ⟨d2, hd2, i, hi, hbad⟩
              rw [hr] at he2
              simp at he2


theorem lookup_mem {b : Type} {l : List (List Char × b)} {k : List Char} {v : b}
    (h : l.lookup k = some v) : (k, v) ∈ l := by
  induction l with
  | nil => simp [List.lookup] at h
  | cons p rest ih =>
    obtain ⟨k2, v2⟩ := p
    rw [List.lookup] at h
    rcases hk : (k == k2) with _ | _
    · rw [hk] at h
      exact List.mem_cons_of_mem _ (ih h)
    · rw [hk] at h
      simp at h hk
      simp [hk, h]

theorem nodup_lookup {b : Type} {l : List (List Char × b)} {k : List Char} {v : b}
    (hnd : (l.map Prod.fst).Nodup) (hm : (k, v) ∈ l) : l.lookup k = some v := by
  induction l with
  | nil => simp at hm
  | cons p rest ih =>
    obtain ⟨k2, v2⟩ := p
    rw [List.map_cons, List.nodup_cons] at hnd
    rw [List.lookup]
    rcases hk : (k == k2) with _ | _
    · show List.lookup k rest = some v
      simp at hk
      rcases List.mem_cons.mp hm with he | hm2
      · exact absurd (congrArg Prod.fst he) (by simpa using hk)
      · exact ih hnd.2 hm2
    · show some v2 = some v
      simp at hk
      subst hk
      rcases List.mem_cons.mp hm with he | hm2
      · simp [Prod.ext_iff] at he
        simp [he]
      · exact absurd (List.mem_map.mpr ⟨(k, v), hm2, rfl⟩) hnd.1

/-- Claim C6 (amended): on success the generator emits exactly one word per
instruction reachable through the label table, except Load-from-Pgm
instructions, which fall into the wildcard arm and emit none
(generator.rs line 329); instruction lists whose key has no entry in the
label table are never visited.  The word count is therefore the sum, over
the label-table entries, of the number of non-Pgm instructions in the list
looked up by the entry's name. -/
theorem generator_word_count {ir : IR} {ws : List InstructionWord}
    (h : generator ir = .ok ws) :
    ws.length = ((ir.label_definitions.map Prod.snd).map (fun d =>
      ((ir.instructions.lookup d.name).getD []).countP (fun i => !isPgmLoad i))).sum := by
  unfold generator at h
  rw [genLabels_ok_length h]
  exact ((List.perm_insertionSort _ _).map _).sum_eq

def pgmIR : IR :=
  IR.mk ['a'] [(['a'], ⟨['a'], 0⟩)] [(['a'], [.load ⟨0⟩ .pgm])]

/-- Claim C6, counterexample: an IR containing exactly one instruction (a
Load with Pgm source) generates zero words, not one. -/
theorem generator_pgm_load_emits_no_word :
    generator pgmIR = .ok [] ∧ (pgmIR.instructions.map (fun p => p.2.length)).sum = 1 :=
  ⟨rfl, rfl⟩

def haltIR : IR :=
  IR.mk ['a'] [(['a'], ⟨['a'], 0⟩)] [(['a'], [.halt])]

/-- Claim C6 witness: a one-instruction IR. -/
theorem generator_word_count_witness :
    generator haltIR = .ok [set_opcode newWord 0x7f] ∧
    ([set_opcode newWord 0x7f] : List InstructionWord).length =
      ((haltIR.label_definitions.map Prod.snd).map (fun d =>
        ((haltIR.instructions.lookup d.name).getD []).countP
          (fun i => !isPgmLoad i))).sum :=
  ⟨rfl, generator_word_count rfl⟩

/-- Claim C5 (amended): for an IR whose instruction-map keys are all covered
by the label table (with table values named after their keys and instruction
keys distinct, as the parser guarantees), generation fails with
UndefinedLabel exactly when some relative jump targets a label absent from
the table; on success every relative label jump had a defined target, so no
undefined target is silently encoded.  Failure returns no word list at all
by the shape of the result type. -/
theorem generator_undefined_label_iff (ir : IR)
    (hname : ∀ p ∈ ir.label_definitions, (p.2 : LabelDefinition).name = p.1)
    (hcov : ∀ p ∈ ir.instructions, (ir.label_definitions.lookup p.1).isSome = true)
    (hnd : (ir.instructions.map Prod.fst).Nodup) :
    (∃ n, generator ir = .error (.undefinedLabel n)) ↔
      ∃ p ∈ ir.instructions, ∃ i ∈ p.2,
        isUndefRelJump ir.label_definitions i = true := by
  unfold generator
  constructor
  · rintro ⟨n, h⟩
    obtain ⟨d, _, i, hi, hbad⟩ := genLabels_error_iff.mp ⟨_, h⟩
    rcases hl : ir.instructions.lookup d.name with _ | l
    · rw [hl] at hi
      simp at hi
    · rw [hl] at hi
      exact ⟨(d.name, l), lookup_mem hl, i, hi, hbad⟩
  · rintro ⟨⟨k, l⟩, hp, i, hi, hbad⟩
    have hs := hcov _ hp
    rcases hl : ir.label_definitions.lookup k with _ | d
    · rw [hl] at hs
      simp at hs
    · have hdk : d.name = k := hname _ (lookup_mem hl)
      have hdm : d ∈ (ir.label_definitions.map Prod.snd).insertionSort
          (fun a b => a.address ≤ b.address) :=
        (List.perm_insertionSort _ _).mem_iff.mpr
          (List.mem_map.mpr ⟨(k, d), lookup_mem hl, rfl⟩)
      have hil : ir.instructions.lookup d.name = some l := by
        rw [hdk]
        exact nodup_lookup hnd hp
      obtain ⟨e, he⟩ := genLabels_error_iff.mpr
        ⟨d, hdm, i, by rw [hil]; exact hi, hbad⟩
      cases e with
      | undefinedLabel n => exact ⟨n, he⟩

def skipIR : IR :=
  IR.mk [] [(['a'], ⟨['a'], 0⟩)] [(['b'], [.jump (.label ['c']) .True])]

/-- Claim C5, counterexample: an IR whose only relative jump targets an
undefined label, but sits in an instruction list whose key "b" is not in the
label table; the generator never visits it and succeeds with an empty word
sequence instead of returning UndefinedLabel. -/
theorem generator_skips_unreachable_undefined_jump :
    generator skipIR = .ok [] ∧
    ∃ p ∈ skipIR.instructions, ∃ i ∈ p.2,
      isUndefRelJump skipIR.label_definitions i = true :=
  ⟨rfl, ⟨(['b'], [.jump (.label ['c']) .True]), by decide, .jump (.label ['c']) .True,
    by decide, by decide⟩⟩

def badJumpIR : IR :=
  IR.mk ['a'] [(['a'], ⟨['a'], 0⟩)] [(['a'], [.jump (.label ['z']) .True])]

/-- Claim C5 witness: an IR with a covered undefined jump satisfies the
hypotheses, and the equivalence applies to it. -/
theorem generator_undefined_label_iff_witness :
    (∀ p ∈ badJumpIR.label_definitions, (p.2 : LabelDefinition).name = p.1) ∧
    (∀ p ∈ badJumpIR.instructions,
      (badJumpIR.label_definitions.lookup p.1).isSome = true) ∧
    (badJumpIR.instructions.map Prod.fst).Nodup ∧
    ((∃ n, generator badJumpIR = .error (.undefinedLabel n)) ↔
      ∃ p ∈ badJumpIR.instructions, ∃ i ∈ p.2,
        isUndefRelJump badJumpIR.label_definitions i = true) :=
  ⟨by decide, by decide, by decide,
    generator_undefined_label_iff badJumpIR (by decide) (by decide) (by decide)⟩

/-! Infrastructure for the label-address claim.  A parser run is described by
its list of label segments, newest first: each element couples the label
definition (with the address computed when it was defined) with the
instructions parsed while it was the current label.  `bindingsOf` recovers
the instruction map the parser builds from the segments: every label
definition inserts an empty binding eagerly, except the start label, whose
binding is created lazily by its first instruction and therefore is absent
when its segment is empty. -/

def bindingsOf : List (LabelDefinition × List Instruction) → List (List Char × List Instruction)
  | [] => []
  | [q] => if q.2 = [] then [] else [(q.1.name, q.2)]
  | q :: q2 :: rest => (q.1.name, q.2) :: bindingsOf (q2 :: rest)

theorem bindingsOf_cons (q : LabelDefinition × List Instruction)
    (pairs : List (LabelDefinition × List Instruction)) (h : pairs ≠ []) :
    bindingsOf (q :: pairs) = (q.1.name, q.2) :: bindingsOf pairs := by
  cases pairs with
  | nil => exact absurd rfl h
  | cons q2 rest => rfl

theorem pushInstr_bindings (d : LabelDefinition) (seg : List Instruction)
    (pairs : List (LabelDefinition × List Instruction)) (i : Instruction) :
    pushInstr (bindingsOf ((d, seg) :: pairs)) d.name i =
      bindingsOf ((d, seg ++ [i]) :: pairs) := by
  cases pairs with
  | nil =>
    cases seg with
    | nil => rfl
    | cons s ss =>
      show pushInstr [(d.name, s :: ss)] d.name i = _
      rw [pushInstr]
      rw [if_pos (by simp [List.lookup])]
      simp [updateFirst, bindingsOf]
  | cons q2 rest =>
    rw [bindingsOf_cons _ _ (List.cons_ne_nil _ _),
      bindingsOf_cons _ _ (List.cons_ne_nil _ _)]
    rw [pushInstr]
    rw [if_pos (by simp [List.lookup])]
    simp [updateFirst]

theorem parseLoop_registerAddress (name : List Char) (ln : Nat) (rest : List Keyword)
    (kl : LabelLUT) (p : List (List Char × List Instruction))
    (sl ll : LabelDefinition) (c : Nat) :
    parseLoop (.registerAddress name ln :: rest) kl p sl ll c =
      (match _hi : try_parse_instruction (.registerAddress name ln) rest with
       | .ok (instruction, rest') =>
         parseLoop rest' kl (pushInstr p ll.name instruction) sl ll (c + 1)
       | .error .endOfStream => .ok ⟨sl.name, kl, p⟩
       | .error e => .error e) := by
  rw [parseLoop.eq_def]
  simp [try_parse_label_definition]

theorem parseLoop_constant (v : Nat) (ln : Nat) (o : List Char) (rest : List Keyword)
    (kl : LabelLUT) (p : List (List Char × List Instruction))
    (sl ll : LabelDefinition) (c : Nat) :
    parseLoop (.constant v ln o :: rest) kl p sl ll c =
      (match _hi : try_parse_instruction (.constant v ln o) rest with
       | .ok (instruction, rest') =>
         parseLoop rest' kl (pushInstr p ll.name instruction) sl ll (c + 1)
       | .error .endOfStream => .ok ⟨sl.name, kl, p⟩
       | .error e => .error e) := by
  rw [parseLoop.eq_def]
  simp [try_parse_label_definition]

theorem parseLoop_chain :
    ∀ (n : Nat) (iter : List Keyword), iter.length ≤ n →
    ∀ (kl : LabelLUT) (parsed : List (List Char × List Instruction))
      (sl ll : LabelDefinition) (cnt : Nat)
      (pairs : List (LabelDefinition × List Instruction)) (ir : IR),
    kl = pairs.map (fun q => (q.1.name, q.1)) →
    parsed = bindingsOf pairs →
    (∃ seg ptail, pairs = (ll, seg) :: ptail ∧ cnt = seg.length) →
    List.Chain' (fun a b => a.1.address = b.1.address + b.2.length) pairs →
    pairs.getLast?.map (fun q => q.1.address) = some 0 →
    parseLoop iter kl parsed sl ll cnt = .ok ir →
    ∃ pairs2, pairs2 ≠ [] ∧
      ir.label_definitions = pairs2.map (fun q => (q.1.name, q.1)) ∧
      ir.instructions = bindingsOf pairs2 ∧
      List.Chain' (fun a b => a.1.address = b.1.address + b.2.length) pairs2 ∧
      pairs2.getLast?.map (fun q => q.1.address) = some 0 := by
  intro n
  induction n with
  | zero =>
    intro iter hlen kl parsed sl ll cnt pairs ir hkl hparsed hhead hchain hlast hrun
    obtain ⟨seg, ptail, rfl, hcnt⟩ := hhead
    have : iter = [] := List.eq_nil_of_length_eq_zero (Nat.le_zero.mp hlen)
    subst this
    rw [parseLoop_nil] at hrun
    simp only [Except.ok.injEq] at hrun
    subst hrun
    exact ⟨(ll, seg) :: ptail, List.cons_ne_nil _ _, hkl, hparsed, hchain, hlast⟩
  | succ n ih =>
    intro iter hlen kl parsed sl ll cnt pairs ir hkl hparsed hhead hchain hlast hrun
    obtain ⟨seg, ptail, rfl, hcnt⟩ := hhead
    cases iter with
    | nil =>
      rw [parseLoop_nil] at hrun
      simp only [Except.ok.injEq] at hrun
      subst hrun
      exact ⟨(ll, seg) :: ptail, List.cons_ne_nil _ _, hkl, hparsed, hchain, hlast⟩
    | cons k rest =>
      have hrest : rest.length ≤ n := by simp at hlen; omega
      cases k with
      | label name ln =>
        rw [parseLoop_label] at hrun
        refine ih rest hrest _ _ sl _ 0
          ((⟨name, ll.address + cnt⟩, []) :: (ll, seg) :: ptail) ir ?_ ?_ ?_ ?_ ?_ hrun
        · rw [hkl]; rfl
        · rw [hparsed, bindingsOf_cons _ _ (List.cons_ne_nil _ _)]
        · exact ⟨[], _, rfl, rfl⟩
        · refine List.chain'_cons.mpr ⟨?_, hchain⟩
          show ll.address + cnt = ll.address + seg.length
          rw [hcnt]
        · rw [List.getLast?_cons_cons]
          exact hlast
      | mmenonic name ln =>
        rw [parseLoop_mmenonic] at hrun
        cases hi : try_parse_instruction (.mmenonic name ln) rest with
        | ok pr =>
          obtain ⟨instr, rest'⟩ := pr
          rw [hi] at hrun
          dsimp only at hrun
          have hlen' : rest'.length ≤ n :=
            le_trans (try_parse_instruction_length hi) hrest
          refine ih rest' hlen' _ _ sl ll (cnt + 1)
            ((ll, seg ++ [instr]) :: ptail) ir ?_ ?_ ?_ ?_ ?_ hrun
          · rw [hkl]; rfl
          · rw [hparsed]
            exact pushInstr_bindings ll seg ptail instr
          · exact ⟨seg ++ [instr], ptail, rfl, by simp [hcnt]⟩
          · cases ptail with
            | nil => exact List.chain'_singleton _
            | cons q2 t2 =>
              have h2 := List.chain'_cons.mp hchain
              exact List.chain'_cons.mpr ⟨h2.1, h2.2⟩
          · cases ptail with
            | nil => simpa using hlast
            | cons q2 t2 =>
              rw [List.getLast?_cons_cons]
              rw [List.getLast?_cons_cons] at hlast
              exact hlast
        | error e =>
          rw [hi] at hrun
          cases e
          case endOfStream =>
            dsimp only at hrun
            simp only [Except.ok.injEq] at hrun
            subst hrun
            exact ⟨(ll, seg) :: ptail, List.cons_ne_nil _ _, hkl, hparsed, hchain, hlast⟩
          all_goals (dsimp only at hrun; exact absurd hrun (by simp))
      | registerAddress name ln =>
        rw [parseLoop_registerAddress] at hrun
        rw [show try_parse_instruction (.registerAddress name ln) rest =
          .error (.unknownCommand name ln) from rfl] at hrun
        simp at hrun
      | constant v ln o =>
        rw [parseLoop_constant] at hrun
        rw [show try_parse_instruction (.constant v ln o) rest =
          .error (.unknownCommand (toString v).toList ln) from rfl] at hrun
        simp at hrun

theorem lookup_bindingsOf (pairs : List (LabelDefinition × List Instruction))
    (hnd : (pairs.map (fun q => q.1.name)).Nodup) :
    ∀ q ∈ pairs, ((bindingsOf pairs).lookup q.1.name).getD [] = q.2 := by
  induction pairs with
  | nil => intro q hq; simp at hq
  | cons p rest ih =>
    intro q hq
    cases rest with
    | nil =>
      rw [List.mem_singleton] at hq
      subst hq
      by_cases hp : q.2 = []
      · rw [show bindingsOf [q] = [] from by simp [bindingsOf, hp]]
        simp [List.lookup, hp]
      · rw [show bindingsOf [q] = [(q.1.name, q.2)] from by simp [bindingsOf, hp]]
        simp [List.lookup]
    | cons p2 rest2 =>
      rw [bindingsOf_cons _ _ (List.cons_ne_nil _ _)]
      rw [List.map_cons, List.nodup_cons] at hnd
      rcases List.mem_cons.mp hq with rfl | hq2
      · rw [List.lookup]
        simp
      · have hne : q.1.name ≠ p.1.name := by
          intro he
          exact hnd.1 (he ▸ List.mem_map.mpr ⟨q, hq2, rfl⟩)
        rw [List.lookup]
        rw [show (q.1.name == p.1.name) = false from by simpa using hne]
        exact ih hnd.2 q hq2

theorem chain_imp_mem {α : Type} {R S : α → α → Prop} :
    ∀ {l : List α}, (∀ a ∈ l, ∀ b ∈ l, R a b → S a b) → List.Chain' R l →
      List.Chain' S l := by
  intro l
  induction l with
  | nil => intro _ _; exact List.chain'_nil
  | cons a t ih =>
    intro himp hch
    cases t with
    | nil => exact List.chain'_singleton a
    | cons b t2 =>
      obtain ⟨hab, hrest⟩ := List.chain'_cons.mp hch
      refine List.chain'_cons.mpr ⟨himp a (by simp) b (by simp) hab, ?_⟩
      exact ih (fun x hx y hy h => himp x (List.mem_cons_of_mem _ hx)
        y (List.mem_cons_of_mem _ hy) h) hrest

theorem chain_getD_telescope {b : Type} (addr : b → Nat) (g : b → Nat)
    (l : List b) (dflt : b)
    (hchain : List.Chain' (fun x y => addr x = addr y + g y) l) :
    ∀ i j, i ≤ j → j < l.length →
      addr (l.getD i dflt) =
        addr (l.getD j dflt) + ∑ k ∈ Finset.Ico i j, g (l.getD (k + 1) dflt) := by
  have hgd : ∀ (n : Nat) (h : n < l.length), l.getD n dflt = l.get ⟨n, h⟩ := by
    intro n h
    simp [List.getD_eq_getElem?_getD, List.getElem?_eq_getElem h]
  intro i j hij
  induction j, hij using Nat.le_induction with
  | base => intro _; simp
  | succ j hij ihj =>
    intro hj1
    have hj : j < l.length := by omega
    have step := List.chain'_iff_get.mp hchain j (by omega)
    rw [Finset.sum_Ico_succ_top hij]
    rw [ihj hj]
    rw [hgd j hj, hgd (j + 1) hj1]
    rw [step]
    omega

/-- Claim C4 (amended): for an accepted token sequence whose label names are
pairwise distinct (`ir.label_definitions` retains one entry per definition
event, newest first, since insertion prepends), each label's address is the
previous label's address plus the number of instructions parsed under that
previous label; the first (oldest) label, explicit or the synthetic "main",
has address 0; and telescoping, the address of a later label equals the
address of any earlier label plus the total number of instructions parsed
between the two definitions.  Without the distinctness hypothesis the claim
fails, see the counterexample. -/
theorem parser_label_addresses (tokens : List Keyword) (ir : IR)
    (h : parser tokens = .ok ir)
    (hnd : (ir.label_definitions.map Prod.fst).Nodup) :
    List.Chain' (fun newer older => newer.2.address =
      older.2.address + ((ir.instructions.lookup older.1).getD []).length)
      ir.label_definitions ∧
    ir.label_definitions.getLast?.map (fun p => p.2.address) = some 0 ∧
    (∀ i j, i ≤ j → j < ir.label_definitions.length →
      (ir.label_definitions.getD i ([], ⟨[], 0⟩)).2.address =
        (ir.label_definitions.getD j ([], ⟨[], 0⟩)).2.address +
          ∑ k ∈ Finset.Ico i j,
            ((ir.instructions.lookup
              (ir.label_definitions.getD (k + 1) ([], ⟨[], 0⟩)).1).getD []).length) := by
  obtain ⟨pairs2, hne2, hkl2, hp2, hch2, hlast2⟩ :
      ∃ pairs2, pairs2 ≠ [] ∧
        ir.label_definitions = pairs2.map (fun q => (q.1.name, q.1)) ∧
        ir.instructions = bindingsOf pairs2 ∧
        List.Chain' (fun a b => a.1.address = b.1.address + b.2.length) pairs2 ∧
        pairs2.getLast?.map (fun q => q.1.address) = some 0 := by
    unfold parser at h
    cases tokens with
    | nil => simp at h
    | cons first rest =>
      cases first with
      | label name ln =>
        dsimp only [try_parse_label_definition] at h
        exact parseLoop_chain rest.length rest le_rfl _ _ _ _ _
          [(⟨name, 0 + 0⟩, [])] ir rfl rfl ⟨[], [], rfl, rfl⟩
          (List.chain'_singleton _) (by simp) h
      | mmenonic name ln =>
        dsimp only [try_parse_label_definition] at h
        cases hi : try_parse_instruction (.mmenonic name ln) rest with
        | ok pr =>
          obtain ⟨instr, rest'⟩ := pr
          rw [hi] at h
          dsimp only at h
          exact parseLoop_chain rest'.length rest' le_rfl _ _ _ _ _
            [(⟨("main").toList, 0⟩, [instr])] ir rfl rfl
            ⟨[instr], [], rfl, rfl⟩ (List.chain'_singleton _) (by simp) h
        | error e =>
          rw [hi] at h
          cases e <;> simp at h
      | registerAddress name ln =>
        dsimp only [try_parse_label_definition] at h
        rw [show try_parse_instruction (.registerAddress name ln) rest =
          .error (.unknownCommand name ln) from rfl] at h
        simp at h
      | constant v ln o =>
        dsimp only [try_parse_label_definition] at h
        rw [show try_parse_instruction (.constant v ln o) rest =
          .error (.unknownCommand (toString v).toList ln) from rfl] at h
        simp at h
  have hnames : (pairs2.map (fun q => q.1.name)).Nodup := by
    rw [hkl2] at hnd
    simpa [List.map_map, Function.comp] using hnd
  have hA : List.Chain' (fun newer older => newer.2.address =
      older.2.address + ((ir.instructions.lookup older.1).getD []).length)
      ir.label_definitions := by
    rw [hkl2, List.chain'_map]
    refine chain_imp_mem (fun a ha b hb hr => ?_) hch2
    show a.1.address = b.1.address + ((ir.instructions.lookup b.1.name).getD []).length
    rw [hp2, lookup_bindingsOf pairs2 hnames b hb]
    exact hr
  refine ⟨hA, ?_, ?_⟩
  · rw [hkl2, List.getLast?_map]
    simpa [Option.map_map, Function.comp] using hlast2
  · intro i j hij hj
    exact chain_getD_telescope (fun p => p.2.address)
      (fun p => ((ir.instructions.lookup p.1).getD []).length)
      ir.label_definitions ([], ⟨[], 0⟩) hA i j hij hj

/-- Claim C4, counterexample: for the accepted sequence consisting of one
instruction followed by an explicit "main" label, the explicit definition
overwrites the synthetic start label, so the address recorded in the label
table for the first label ("main") is 1, not 0. -/
theorem parser_duplicate_main_address_nonzero :
    (parser [.mmenonic ("nop").toList 0, .label ("main").toList 1]).map
      (fun ir => ir.label_definitions.lookup (("main").toList)) =
    .ok (some ⟨("main").toList, 1⟩) := by
  simp +decide [parser, parseLoop_nil, parseLoop_label, parseLoop_mmenonic,
    try_parse_instruction, try_parse_label_definition, pushInstr, List.lookup,
    Except.map]

def c4Tokens : List Keyword :=
  [.label ['a'] 0, .mmenonic ("nop").toList 1, .label ['b'] 2,
   .mmenonic ("hlt").toList 3]

def c4IR : IR :=
  IR.mk ['a'] [(['b'], ⟨['b'], 1⟩), (['a'], ⟨['a'], 0⟩)]
    [(['b'], [.halt]), (['a'], [.noop])]

/-- Claim C4 witness: a two-label program with one instruction under each
label. -/
theorem parser_label_addresses_witness :
    parser c4Tokens = .ok c4IR ∧
    (c4IR.label_definitions.map Prod.fst).Nodup ∧
    (List.Chain' (fun newer older => newer.2.address =
      older.2.address + ((c4IR.instructions.lookup older.1).getD []).length)
      c4IR.label_definitions ∧
    c4IR.label_definitions.getLast?.map (fun p => p.2.address) = some 0 ∧
    (∀ i j, i ≤ j → j < c4IR.label_definitions.length →
      (c4IR.label_definitions.getD i ([], ⟨[], 0⟩)).2.address =
        (c4IR.label_definitions.getD j ([], ⟨[], 0⟩)).2.address +
          ∑ k ∈ Finset.Ico i j,
            ((c4IR.instructions.lookup
              (c4IR.label_definitions.getD (k + 1) ([], ⟨[], 0⟩)).1).getD []).length)) := by
  have hp : parser c4Tokens = .ok c4IR := by
    simp +decide [c4Tokens, c4IR, parser, parseLoop_nil, parseLoop_label,
      parseLoop_mmenonic, try_parse_instruction, try_parse_label_definition,
      pushInstr, List.lookup]
  exact ⟨hp, by decide, parser_label_addresses c4Tokens c4IR hp (by decide)⟩

end Masm
